import Mathlib

/-!
Verification development for the MotherTongues dictionary core: the
collation sorter (`mothertongues/processors/sorter.py`) and the inverted
index / BM25 scoring engine (`mothertongues/processors/index_builder.py`),
embedded shallowly.

Modelling conventions:
* Python dicts are insertion-ordered association lists; `getA`/`setA`
  mirror `m[k]` reads and writes.
* Fallible Python operations (`KeyError`, `ZeroDivisionError`,
  `ValueError` from `math.log` on a non-positive argument) are modelled
  with `Except String`.
* Python floats and `math.log` are modelled over `Rat` with an abstract
  `log : Rat → Rat` parameter; every property proved here is independent
  of the analytic values of the logarithm.
* Bounded recursions that Python expresses with regular expressions
  (`re.split` grapheme tokenization, `re.sub` bracket stripping) are
  written with an explicit fuel argument that is always supplied large
  enough to cover the input, so the definitions are structurally
  recursive and kernel-reducible.
-/

/-- Read of an insertion-ordered association list: Python `m.get(k)`,
`none` when the key is absent. -/
def getA {α β : Type} [BEq α] (m : List (α × β)) (k : α) : Option β :=
  (m.find? (fun p => p.1 == k)).map (fun p => p.2)

/-- Python dict write `m[k] = v`: replaces the binding in place when the
key is present, appends it otherwise (insertion order preserved). -/
def setA {α β : Type} [BEq α] (m : List (α × β)) (k : α) (v : β) : List (α × β) :=
  if (m.find? (fun p => p.1 == k)).isSome then
    m.map (fun p => if p.1 == k then (k, v) else p)
  else m ++ [(k, v)]

/-- `leadsWith pat cs` is true when the character list `pat` is an initial
segment of `cs` (the splitter regex matching a grapheme at the current
position). -/
def leadsWith : List Char → List Char → Bool
  | [], _ => true
  | _ :: _, [] => false
  | a :: as, b :: bs => a == b && leadsWith as bs

/-- One step of the compiled splitter regex `(g1|g2|...)`: return the
first alternative in `gs` that matches at the current position.  The
alternatives are supplied in descending length order (`splitOrder`), so
the first match is a longest match.  Empty graphemes are skipped: the
Python regex behaviour for an empty alternative is pathological and no
configuration uses one. -/
def matchGrapheme : List String → List Char → Option String
  | [], _ => none
  | g :: gs, cs =>
    if !g.data.isEmpty && leadsWith g.data cs then some g else matchGrapheme gs cs

/-- `sorted(self.order, key=len, reverse=True)` from `ArbSorter.__init__`:
the alphabet in stable descending grapheme-length order, the order in
which the splitter regex tries its alternatives. -/
def splitOrder (order : List String) : List String :=
  List.insertionSort (fun a b => b.length ≤ a.length) order

/-- Worker for `tokenizeWord`, one fuel unit per step.  `pending` holds
the (reversed) run of characters since the last grapheme match; a maximal
unmatched run becomes a single out-of-vocabulary chunk, exactly as the
pieces between matches of `re.split` do after empty strings are filtered
out.  The fuel-exhausted branch is unreachable when the initial fuel
exceeds the input length. -/
def tokenizeFuel (gs : List String) : Nat → List Char → List Char → List String
  | 0, pending, cs =>
    if (pending.reverse ++ cs).isEmpty then [] else [String.mk (pending.reverse ++ cs)]
  | fuel + 1, pending, cs =>
    match matchGrapheme gs cs with
    | some g =>
      let toks := g :: tokenizeFuel gs fuel [] (cs.drop g.data.length)
      if pending.isEmpty then toks else String.mk pending.reverse :: toks
    | none =>
      match cs with
      | [] => if pending.isEmpty then [] else [String.mk pending.reverse]
      | c :: cs2 => tokenizeFuel gs fuel (c :: pending) cs2

/-- `[x for x in self.splitter.split(word) if x]` from
`ArbSorter.word_as_values`: the word as a list of chunks, each chunk
either a grapheme of the alphabet or a maximal run of characters not
matched by any grapheme. -/
def tokenizeWord (gs : List String) (cs : List Char) : List String :=
  tokenizeFuel gs (cs.length + 1) [] cs

/-- State of an `ArbSorter` instance: the constructor arguments plus the
three mutable tables (`char_to_ord_lookup`, `ord_to_char_lookup`,
`oovs`). -/
structure Sorter where
  order : List String
  ignorable : List String
  charToOrd : List (String × Nat)
  ordToChar : List (Nat × String)
  oovs : List String
deriving DecidableEq

/-- `self.oov_start = 10000`. -/
def oovStart : Nat := 10000

/-- `ArbSorter.__init__` for an in-memory alphabet: build
`char_to_ord_lookup` from the alphabet order and invert it into
`ord_to_char_lookup`; `oovs` starts empty. -/
def ArbSorter.init (order ignorable : List String) : Sorter :=
  let charToOrd := order.enum.foldl (fun m p => setA m p.2 p.1) []
  { order := order
    ignorable := ignorable
    charToOrd := charToOrd
    ordToChar := charToOrd.foldl (fun m p => setA m p.2 p.1) []
    oovs := [] }

/-- The `for oov in char` loop of `ArbSorter.word_as_values`: each
non-ignorable code point of an out-of-vocabulary chunk is (re-)entered
into both lookup tables, appended to `oovs`, and contributes
`oov_start + ord(oov)` to the value list. -/
def oovLoop : Sorter → List Char → Sorter × List Nat
  | st, [] => (st, [])
  | st, ch :: rest =>
    let s := String.mk [ch]
    if s ∈ st.ignorable then oovLoop st rest
    else
      let idx := oovStart + ch.toNat
      let st2 : Sorter :=
        { st with
          charToOrd := setA st.charToOrd s idx
          ordToChar := setA st.ordToChar idx s
          oovs := st.oovs ++ [s] }
      let (st3, vs) := oovLoop st2 rest
      (st3, idx :: vs)

/-- The `for char in word` loop of `ArbSorter.word_as_values` over the
chunk list produced by the splitter. -/
def valuesLoop : Sorter → List String → Sorter × List Nat
  | st, [] => (st, [])
  | st, chunk :: rest =>
    if chunk ∈ st.ignorable then valuesLoop st rest
    else
      match getA st.charToOrd chunk with
      | some v =>
        let (st2, vs) := valuesLoop st rest
        (st2, v :: vs)
      | none =>
        let (st2, vs1) := oovLoop st chunk.data
        let (st3, vs2) := valuesLoop st2 rest
        (st3, vs1 ++ vs2)

/-- `ArbSorter.word_as_values`: tokenize the word with the splitter and
turn each chunk into sort-key values, threading the mutable sorter
state. -/
def wordAsValues (st : Sorter) (w : String) : Sorter × List Nat :=
  valuesLoop st (tokenizeWord (splitOrder st.order) w.data)




/-- A value stored in an entry field: the MTD data reaching the indexer
has strings or lists of strings at every indexed field. -/
inductive Val where
  | vstr (s : String)
  | vlist (l : List String)
deriving DecidableEq

/-- A canonical dictionary entry as the indexer sees it: the mandatory
`entryID` (guaranteed by the `DictionaryEntry` schema) plus the remaining
fields. -/
structure Entry where
  entryID : String
  fields : List (String × Val)
deriving DecidableEq

/-- Python dict access `entry[key]` / the single jsonpath match
`json_parse(key).find(entry)`: the `entryID` key is always present. -/
def Entry.get (e : Entry) (key : String) : Option Val :=
  if key == "entryID" then some (.vstr e.entryID) else getA e.fields key

/-- Truthiness of a field value (`if doc[key]`). -/
def truthyVal : Val → Bool
  | .vstr s => !s.isEmpty
  | .vlist l => !l.isEmpty

/-- `len(doc[key]) if isinstance(doc[key], list) else 1` from
`InvertedIndex._calculate_idf`. -/
def idfCount : Val → Nat
  | .vstr _ => 1
  | .vlist l => l.length

/-- Python `str.split()`: split on whitespace runs, no empty tokens.
Worker carrying the reversed current token. -/
def splitWsGo (acc : List Char) : List Char → List String
  | [] => if acc.isEmpty then [] else [String.mk acc.reverse]
  | c :: rest =>
    if c.isWhitespace then
      if acc.isEmpty then splitWsGo [] rest
      else String.mk acc.reverse :: splitWsGo [] rest
    else splitWsGo (c :: acc) rest

/-- Python `str.split()` with no arguments. -/
def splitWs (s : String) : List String := splitWsGo [] s.data

/-- `InvertedIndex._process_terms`: optional normalization, whitespace
split, optional stemming.  The normalization and stemmer callables are
arbitrary string functions supplied by configuration, so they are
parameters of the model (`none` models the Python `None`). -/
def processTerms (norm stem : Option (String → String)) (s : String) : List String :=
  let s := match norm with
    | some f => f s
    | none => s
  let terms := splitWs s
  match stem with
  | some f => terms.map f
  | none => terms

/-- A posting: the `location` list of `[value_item_key, j]` pairs and the
`score` dict (absent in freshly built postings, modelled by `[]`). -/
structure Posting where
  location : List (String × Nat)
  score : List (String × Rat)
deriving DecidableEq

/-- The inverted index `self.data`: term → entryID → posting. -/
abbrev IndexData := List (String × List (String × Posting))

/-- `InvertedIndex._add_index`. -/
def addIndex (data : IndexData) (term docId key : String) (j : Nat) : IndexData :=
  match getA data term with
  | some postings =>
    match getA postings docId with
    | some p =>
      setA data term (setA postings docId { p with location := p.location ++ [(key, j)] })
    | none => setA data term (postings ++ [(docId, ⟨[(key, j)], []⟩)])
  | none => data ++ [(term, [(docId, ⟨[(key, j)], []⟩)])]

/-- `for j, term in enumerate(terms): self._add_index(term, doc_id,
value_item_key, j)` starting at position `j`. -/
def indexTermsFrom (docId itemKey : String) (j : Nat) :
    IndexData → List String → IndexData
  | data, [] => data
  | data, t :: ts => indexTermsFrom docId itemKey (j + 1) (addIndex data t docId itemKey j) ts

/-- Iteration order of Python's `set(terms)` is interpreter-dependent;
only the set of elements matters to the counter update, so the model
fixes first-occurrence order. -/
def dedupFirstGo (seen : List String) : List String → List String
  | [] => []
  | x :: xs => if x ∈ seen then dedupFirstGo seen xs else x :: dedupFirstGo (x :: seen) xs

/-- Distinct elements of a list, first occurrences kept. -/
def dedupFirst (l : List String) : List String := dedupFirstGo [] l

/-- `self.doc_frequency_counter[key].update(set(terms))`: add one to the
counter of every distinct term. -/
def updateCounter (c : List (String × Nat)) (terms : List String) : List (String × Nat) :=
  (dedupFirst terms).foldl (fun c t => setA c t ((getA c t).getD 0 + 1)) c

/-- The mutable state `InvertedIndex.build` accumulates: `self.data`,
`self.doc_frequency_counter` and `self.document_lengths`. -/
structure IndexState where
  data : IndexData
  docFreq : List (String × List (String × Nat))
  docLengths : List (String × List (String × Nat))
deriving DecidableEq

/-- The body of the `for i, value_item in enumerate(value)` loop in
`InvertedIndex.build`: process one resolved value item of one field of
one entry.  Initializing an absent counter to an empty dict and then
updating it is modelled by `getD []`. -/
def processItem (norm stem : Option (String → String)) (st : IndexState)
    (docId key itemKey : String) (raw : String) : IndexState :=
  let terms := processTerms norm stem raw
  { data := indexTermsFrom docId itemKey 0 st.data terms
    docFreq := setA st.docFreq key (updateCounter ((getA st.docFreq key).getD []) terms)
    docLengths :=
      setA st.docLengths key (setA ((getA st.docLengths key).getD []) docId terms.length) }

/-- The `for i, value_item in enumerate(value)` loop over the resolved
value items, with `key_indices` suffixes `[i]` for list values. -/
def processItems (norm stem : Option (String → String)) (docId key : String) :
    IndexState → Nat → List String → IndexState
  | st, _, [] => st
  | st, i, v :: vs =>
    processItems norm stem docId key
      (processItem norm stem st docId key (key ++ "[" ++ toString i ++ "]") v) (i + 1) vs

/-- The body of the `for key in self.keys_to_index` loop in
`InvertedIndex.build`: resolve the field value (`value[0].value` of the
jsonpath matches; a missing field yields no matches, which is falsy and
skipped), convert a scalar to a singleton with an index-free item key,
and process every item. -/
def buildEntryKey (norm stem : Option (String → String)) (st : IndexState)
    (e : Entry) (key : String) : IndexState :=
  match e.get key with
  | none => st
  | some (.vstr s) => processItem norm stem st e.entryID key key s
  | some (.vlist l) => processItems norm stem e.entryID key st 0 l

/-- One entry of the `for entry in self.raw_data` loop. -/
def buildEntry (norm stem : Option (String → String)) (keys : List String)
    (st : IndexState) (e : Entry) : IndexState :=
  keys.foldl (fun st key => buildEntryKey norm stem st e key) st

/-- `InvertedIndex.build` over an entry list (the instance's sorted
`raw_data`): fresh side tables, then the nested loops. -/
def buildState (norm stem : Option (String → String)) (keys : List String)
    (raw : List Entry) : IndexState :=
  raw.foldl (buildEntry norm stem keys) ⟨[], [], []⟩

/-- Python's `<` on strings: lexicographic comparison of the code-point
sequences. -/
def charsLt : List Char → List Char → Bool
  | [], [] => false
  | [], _ :: _ => true
  | _ :: _, [] => false
  | a :: as, b :: bs => if a < b then true else if b < a then false else charsLt as bs

/-- The non-strict comparison a stable ascending Python sort effectively
uses on its keys: `a <= b` iff not `b < a`. -/
def strLe (a b : String) : Bool := !(charsLt b.data a.data)

/-- The constructor's `sorted(self.raw_data, key=lambda x: x["entryID"])`:
Python's stable ascending sort, modelled with insertion sort (stable, and
extensionally the unique stable sort). -/
def sortEntries (raw : List Entry) : List Entry :=
  List.insertionSort (fun a b => strLe a.entryID b.entryID) raw

/-- `InvertedIndex(raw_data, ...)` followed by `build()`: the constructor
sorts its copy of the entries by `entryID`, and `build` runs over the
sorted list. -/
def buildFromRaw (norm stem : Option (String → String)) (keys : List String)
    (raw : List Entry) : IndexState :=
  buildState norm stem keys (sortEntries raw)



/-- Worker for `stripBrackets`, one fuel unit per step: at a `[`, try to
match `\x5bdigits\x5d` greedily and drop it; on failure (or any other
character) keep the character and continue at the next position, exactly
as the regex scan of `re.sub` does.  The fuel-exhausted branch is
unreachable when the initial fuel covers the input length. -/
def stripBFuel : Nat → List Char → List Char
  | 0, l => l
  | _ + 1, [] => []
  | fuel + 1, c :: rest =>
    if c == '[' then
      let ds := rest.takeWhile Char.isDigit
      if ds.isEmpty then c :: stripBFuel fuel rest
      else
        match rest.drop ds.length with
        | ']' :: r => stripBFuel fuel r
        | _ => c :: stripBFuel fuel rest
    else c :: stripBFuel fuel rest

/-- `re.sub(r"\x5c\x5b\x5cd+\x5c\x5d", "", x)` from
`InvertedIndex._calculate_score`: remove every `[digits]` occurrence. -/
def stripBrackets (s : String) : String :=
  String.mk (stripBFuel s.data.length s.data)

/-- The term frequency of `_calculate_score`: the number of locations of
the posting whose field key, with index suffixes stripped, equals the
current field. -/
def countTf (key : String) (locs : List (String × Nat)) : Nat :=
  (locs.filter (fun x => stripBrackets x.1 == key)).length

/-- `math.log`: raises `ValueError` on a non-positive argument, otherwise
returns the abstract logarithm. -/
def safeLog (log : Rat → Rat) (x : Rat) : Except String Rat :=
  if x ≤ 0 then .error "ValueError: math domain error" else .ok (log x)

/-- Worker for `nDocuments`, accumulating the running sum. -/
def nDocumentsGo (key : String) : Nat → List Entry → Except String Nat
  | acc, [] => .ok acc
  | acc, e :: rest =>
    match e.get key with
    | none => .error "KeyError"
    | some v => nDocumentsGo key (if truthyVal v then acc + idfCount v else acc) rest

/-- The per-field document count of `_calculate_idf`:
`sum(len(doc[key]) if isinstance(doc[key], list) else 1
for doc in self.raw_data if doc[key])`.  Reading `doc[key]` raises
`KeyError` when the field is absent from an entry. -/
def nDocuments (raw : List Entry) (key : String) : Except String Nat :=
  nDocumentsGo key 0 raw

/-- The `for term in self.data` loop of `_calculate_idf` for one field:
`IDF = log(n_documents - document_frequency + 0.5) -
log(document_frequency + 0.5)` with the document frequency read from the
field's counter (`0` for an unseen term, as `Counter` lookups never
raise). -/
def calcIdfTerms (log : Rat → Rat) (n : Nat) (counter : List (String × Nat)) :
    IndexData → Except String (List (String × Rat))
  | [] => .ok []
  | (term, _) :: rest =>
    let df := (getA counter term).getD 0
    match safeLog log ((n : Rat) - (df : Rat) + 1 / 2) with
    | .error e => .error e
    | .ok a =>
      match safeLog log ((df : Rat) + 1 / 2) with
      | .error e => .error e
      | .ok b =>
        match calcIdfTerms log n counter rest with
        | .error e => .error e
        | .ok tail => .ok ((term, a - b) :: tail)

/-- `InvertedIndex._calculate_idf`: per indexed field, the document count
and then an idf for every term of the index.  `self.doc_frequency_counter[key]`
is read only inside the term loop, so with an empty index a missing
counter raises nothing; with a non-empty index it raises `KeyError` at
the first term. -/
def calcIdf (log : Rat → Rat) (raw : List Entry) (data : IndexData)
    (docFreq : List (String × List (String × Nat))) :
    List String → List (String × List (String × Rat)) →
    Except String (List (String × List (String × Rat)))
  | [], idfs => .ok idfs
  | key :: keys, idfs =>
    match nDocuments raw key with
    | .error e => .error e
    | .ok n =>
      match getA docFreq key with
      | none =>
        if data.isEmpty then calcIdf log raw data docFreq keys (setA idfs key [])
        else .error "KeyError"
      | some counter =>
        match calcIdfTerms log n counter data with
        | .error e => .error e
        | .ok idfsKey => calcIdf log raw data docFreq keys (setA idfs key idfsKey)

/-- `sum(v for v in self.IDFS[key].values() if v > 0)` from
`_calculate_score`, in iteration order. -/
def sumPosIdfs (idfsKey : List (String × Rat)) : Rat :=
  idfsKey.foldl (fun acc p => if 0 < p.2 then acc + p.2 else acc) 0

/-- The per-field average idf `_calculate_score` uses for the negative-idf
correction: the sum of the strictly positive idf values divided by the
number of ALL idf entries of the field (`len(self.IDFS[key])`). -/
def avgIdfCode (idfsKey : List (String × Rat)) : Rat :=
  sumPosIdfs idfsKey / (idfsKey.length : Rat)

/-- The score-dict update of `_calculate_score`: create the dict when
absent, set the per-field score, then create or accumulate `total`. -/
def applyScore (p : Posting) (key : String) (s : Rat) : Posting :=
  let sc := setA p.score key s
  match getA sc "total" with
  | none => { p with score := sc ++ [("total", s)] }
  | some t => { p with score := setA sc "total" (t + s) }

/-- The `for posting in self.data[term].keys()` loop of
`_calculate_score` for one term of one field, threading the (possibly
corrected) idf stored in `self.IDFS[key][term]`.  Python raises
`ZeroDivisionError` on the divisions by `self.avg_document_length` and by
the BM25 denominator. -/
def scorePostings (k1 b epsilon avgIdf avgDocLen : Rat) (key : String)
    (dls : List (String × Nat)) :
    Rat → List (String × Posting) → Except String (Rat × List (String × Posting))
  | idf, [] => .ok (idf, [])
  | idf, (docId, p) :: rest =>
    let idf2 := if idf < 0 then epsilon * avgIdf else idf
    let tf : Rat := (countTf key p.location : Nat)
    let dl : Rat := ((getA dls docId).getD 0 : Nat)
    if avgDocLen = 0 then .error "ZeroDivisionError"
    else
      let denom := tf + k1 * (1 - b + b * dl / avgDocLen)
      if denom = 0 then .error "ZeroDivisionError"
      else
        let s := idf2 * (tf * (k1 + 1) / denom)
        match scorePostings k1 b epsilon avgIdf avgDocLen key dls idf2 rest with
        | .error e => .error e
        | .ok (idfFinal, rest2) => .ok (idfFinal, (docId, applyScore p key s) :: rest2)

/-- The `for term in self.data` loop of `_calculate_score` for one field:
look up the term's idf (`KeyError` if absent), score its postings, and
store the corrected idf back into the field's idf dict. -/
def scoreTerms (k1 b epsilon avgIdf avgDocLen : Rat) (key : String)
    (dls : List (String × Nat)) :
    List (String × Rat) → List (String × List (String × Posting)) →
    Except String (List (String × Rat) × IndexData)
  | idfsKey, [] => .ok (idfsKey, [])
  | idfsKey, (term, postings) :: rest =>
    match getA idfsKey term with
    | none => .error "KeyError"
    | some idf0 =>
      match scorePostings k1 b epsilon avgIdf avgDocLen key dls idf0 postings with
      | .error e => .error e
      | .ok (idf1, postings2) =>
        match scoreTerms k1 b epsilon avgIdf avgDocLen key dls
            (setA idfsKey term idf1) rest with
        | .error e => .error e
        | .ok (idfsKey2, rest2) => .ok (idfsKey2, (term, postings2) :: rest2)

/-- The body of the `for key in self.keys_to_index` loop of
`_calculate_score`: the average idf (`ZeroDivisionError` on a field with
no idf entries), the average document length (`KeyError` when the field
has no length table, `ZeroDivisionError` when it is empty), then the
scoring loop over all terms. -/
def scoreKey (k1 b epsilon : Rat)
    (docLengths : List (String × List (String × Nat)))
    (st : List (String × List (String × Rat)) × IndexData) (key : String) :
    Except String (List (String × List (String × Rat)) × IndexData) :=
  match getA st.1 key with
  | none => .error "KeyError"
  | some idfsKey =>
    if idfsKey.length = 0 then .error "ZeroDivisionError"
    else
      let avgIdf := avgIdfCode idfsKey
      match getA docLengths key with
      | none => .error "KeyError"
      | some dls =>
        if dls.length = 0 then .error "ZeroDivisionError"
        else
          let avgDocLen := ((dls.map (fun p => (p.2 : Rat))).sum) / (dls.length : Rat)
          match scoreTerms k1 b epsilon avgIdf avgDocLen key dls idfsKey st.2 with
          | .error e => .error e
          | .ok (idfsKey2, data2) => .ok (setA st.1 key idfsKey2, data2)

/-- The `for key in self.keys_to_index` loop of `_calculate_score`. -/
def scoreKeys (k1 b epsilon : Rat)
    (docLengths : List (String × List (String × Nat)))
    (st : List (String × List (String × Rat)) × IndexData) :
    List String → Except String (List (String × List (String × Rat)) × IndexData)
  | [] => .ok st
  | key :: keys =>
    match scoreKey k1 b epsilon docLengths st key with
    | .error e => .error e
    | .ok st2 => scoreKeys k1 b epsilon docLengths st2 keys

/-- `InvertedIndex.calculate_scores(b, k1, epsilon)`: `_calculate_idf`
followed by `_calculate_score`, given the build products (`self.data`,
`self.doc_frequency_counter`, `self.document_lengths`) and the instance's
`raw_data`.  Returns the final `self.IDFS` and the scored `self.data`. -/
def calculateScores (log : Rat → Rat) (raw : List Entry) (keys : List String)
    (data : IndexData) (docFreq docLengths : List (String × List (String × Nat)))
    (b k1 epsilon : Rat) :
    Except String (List (String × List (String × Rat)) × IndexData) :=
  match calcIdf log raw data docFreq keys [] with
  | .error e => .error e
  | .ok idfs => scoreKeys k1 b epsilon docLengths (idfs, data) keys

/-- The full pipeline `InvertedIndex(raw, ...).build();
calculate_scores(b, k1, epsilon)`. -/
def runIndex (log : Rat → Rat) (norm stem : Option (String → String))
    (keys : List String) (raw : List Entry) (b k1 epsilon : Rat) :
    Except String (List (String × List (String × Rat)) × IndexData) :=
  let st := buildFromRaw norm stem keys raw
  calculateScores log (sortEntries raw) keys st.data st.docFreq st.docLengths b k1 epsilon

/-- `calculate_scores` invoked on a freshly constructed instance on which
`build()` has never run: `self.data` is the empty dict from `__init__`,
and the two side tables do not exist as attributes.  The execution never
reads them before failing (`self.data` being empty, the only reads are
guarded), so they are passed as empty tables here. -/
def scoresWithoutBuild (log : Rat → Rat) (keys : List String) (raw : List Entry)
    (b k1 epsilon : Rat) :
    Except String (List (String × List (String × Rat)) × IndexData) :=
  calculateScores log (sortEntries raw) keys [] [] [] b k1 epsilon

attribute [local semireducible] Rat.add Rat.mul Rat.sub Rat.inv

/-- Structural equality of `Except` results, used to evaluate concrete
runs of the fallible pipeline. -/
instance exceptDecEq {e a : Type} [DecidableEq e] [DecidableEq a] :
    DecidableEq (Except e a) := fun x y =>
  match x, y with
  | .ok u, .ok v =>
    if h : u = v then .isTrue (by rw [h]) else .isFalse (fun hh => by cases hh; exact h rfl)
  | .error u, .error v =>
    if h : u = v then .isTrue (by rw [h]) else .isFalse (fun hh => by cases hh; exact h rfl)
  | .ok _, .error _ => .isFalse (fun hh => by cases hh)
  | .error _, .ok _ => .isFalse (fun hh => by cases hh)

/-- Assembled by hand: automatic synthesis hits the instance-size limit on
this deeply nested type. -/
instance scoresResultDecEq :
    DecidableEq (List (String × List (String × Rat)) × IndexData) :=
  fun x y => instDecidableEqProd x y

/-- Equality of whole pipeline results is decidable. -/
instance scoresExceptDecEq :
    DecidableEq (Except String (List (String × List (String × Rat)) × IndexData)) :=
  exceptDecEq




/-- `n` successive `word_as_values` calls on the same sorter instance for
the same word, threading the mutable state and collecting each call's
value list. -/
def encodeRepeat (w : String) : Sorter → Nat → Sorter × List (List Nat)
  | st, 0 => (st, [])
  | st, n + 1 =>
    let (st2, vs) := wordAsValues st w
    let (st3, rest) := encodeRepeat w st2 n
    (st3, vs :: rest)

/-- A value of an entry dict as seen by `ArbSorter.return_sorted_data`:
either a string (the sort-source field) or a previously computed
`sorting_form` sort key. -/
inductive IVal where
  | istr (s : String)
  | ikey (k : List Nat)
deriving DecidableEq

/-- An entry as a plain Python dict, as the sorter receives it. -/
abbrev Item := List (String × IVal)

/-- Errors of the sorting step: a bare `KeyError` from `item[target]`, a
`TypeError` from handing a non-string to the splitter, and the
`ConfigurationError` `MTDictionary.initialize` converts the `KeyError`
into. -/
inductive MTDErr where
  | keyErr (k : String)
  | typeErr
  | configErr (msg : String)
deriving DecidableEq

/-- Python's lexicographic `<=` on lists of ints (shorter is smaller on a
common prefix), used by `sorted(key=lambda x: x[sort_key])`. -/
def listNatLE : List Nat → List Nat → Bool
  | [], _ => true
  | _ :: _, [] => false
  | a :: as, b :: bs => if a < b then true else if b < a then false else listNatLE as bs

/-- The sort key of an annotated item.  Every item reaching the sort has
`sort_key` set to a `sorting_form` value; the default is unreachable. -/
def itemSortVal (sortKey : String) (x : Item) : List Nat :=
  match getA x sortKey with
  | some (.ikey k) => k
  | _ => []

/-- The `for item in item_list` loop of `ArbSorter.return_sorted_data`:
`item[sort_key] = self.word_as_values(item[target])` for every item, in
order, threading the sorter state.  `item[target]` raises `KeyError` when
the field is absent; a non-string value makes the splitter raise
`TypeError`. -/
def annotateItems (target sortKey : String) :
    Sorter → List Item → Except MTDErr (Sorter × List Item)
  | st, [] => .ok (st, [])
  | st, item :: rest =>
    match getA item target with
    | none => .error (.keyErr target)
    | some (.ikey _) => .error .typeErr
    | some (.istr x) =>
      let r := wordAsValues st x
      let item2 := setA item sortKey (.ikey r.2)
      match annotateItems target sortKey r.1 rest with
      | .error e => .error e
      | .ok (st3, rest2) => .ok (st3, item2 :: rest2)

/-- `ArbSorter.return_sorted_data` (also `ArbSorter.__call__`): annotate
every item with its `sorting_form` and return the list stably sorted by
that key. -/
def returnSortedData (st : Sorter) (itemList : List Item) (target sortKey : String) :
    Except MTDErr (Sorter × List Item) :=
  match annotateItems target sortKey st itemList with
  | .error e => .error e
  | .ok (st2, annotated) =>
    .ok (st2, List.insertionSort
      (fun x y => listNatLE (itemSortVal sortKey x) (itemSortVal sortKey y)) annotated)

/-- The `ConfigurationError` message `MTDictionary.initialize` builds:
it quotes the missing sorting field and lists the first entry's field
names (`self.data[0].keys()`, rendered here as the comma-joined names). -/
def configMsg (field : String) (available : List String) : String :=
  "Sorry, the key \x27" ++ field ++
    "\x27 is not found in your data, please change the sorting_field to a field name that exists in your data. Your data fieldnames are: " ++
    String.intercalate ", " available

/-- The sorting step of `MTDictionary.initialize`: run the sorter over the
parsed data and convert a `KeyError` into a `ConfigurationError` whose
message names the sorting field and the available field names.  Other
exceptions (such as `TypeError`) propagate unchanged. -/
def mtdSortStep (alphabet noSortChars : List String) (sortingField : String)
    (data : List Item) : Except MTDErr (Sorter × List Item) :=
  match returnSortedData (ArbSorter.init alphabet noSortChars) data sortingField
      "sorting_form" with
  | .error (.keyErr _) =>
    .error (.configErr (configMsg sortingField ((data.headD []).map Prod.fst)))
  | r => r

/-- The counting rule stated by the claim (and by the spec sentence it
quotes), written from the spec's words for comparison: the number of
entries with a non-empty value for the field, each entry counted once. -/
def nDocumentsClaim (raw : List Entry) (key : String) : Nat :=
  (raw.filter (fun e =>
    match e.get key with
    | some v => truthyVal v
    | none => false)).length

/-- The averaging rule stated by the claim, written from the spec's words
for comparison: the arithmetic mean of the strictly positive idf values
only (positive sum over positive count). -/
def avgIdfClaim (idfsKey : List (String × Rat)) : Rat :=
  sumPosIdfs idfsKey / (((idfsKey.map Prod.snd).filter (fun v => 0 < v)).length : Rat)

/-- The token count of the last resolved value item of a field value:
what `build()` actually leaves in `document_lengths` for the pair, since
each list element's count overwrites the previous one. -/
def lastItemTokenCount (norm stem : Option (String → String)) : Val → Option Nat
  | .vstr s => some (processTerms norm stem s).length
  | .vlist l => l.getLast?.map (fun s => (processTerms norm stem s).length)

/-- Every score value of every posting of the index is non-negative. -/
def allScoresNonneg (data : IndexData) : Prop :=
  ∀ tp ∈ data, ∀ dp ∈ tp.2, ∀ kv ∈ dp.2.score, 0 ≤ kv.2

/-- No posting of the index carries a score dict yet (the state `build()`
leaves behind). -/
def noScores (data : IndexData) : Prop :=
  ∀ tp ∈ data, ∀ dp ∈ tp.2, dp.2.score = []

theorem getA_nil {α β : Type} [BEq α] (k : α) : getA ([] : List (α × β)) k = none := rfl

theorem getA_cons {α β : Type} [BEq α] (p : α × β) (m : List (α × β)) (k : α) :
    getA (p :: m) k = if p.1 == k then some p.2 else getA m k := by
  by_cases h : (p.1 == k) = true
  · simp [getA, List.find?_cons, h]
  · simp only [Bool.not_eq_true] at h
    simp [getA, List.find?_cons, h]

theorem getA_map_set_self {α β : Type} [BEq α] [LawfulBEq α]
    (m : List (α × β)) (k : α) (v : β)
    (hfind : (m.find? (fun p => p.1 == k)).isSome) :
    getA (m.map (fun p => if p.1 == k then (k, v) else p)) k = some v := by
  induction m with
  | nil => simp [List.find?] at hfind
  | cons p rest ih =>
    by_cases hp : (p.1 == k) = true
    · simp only [List.map_cons, if_pos hp, getA_cons, beq_self_eq_true, if_pos]
    · simp only [Bool.not_eq_true] at hp
      rw [List.find?_cons] at hfind
      simp only [hp] at hfind
      simp only [List.map_cons, hp, Bool.false_eq_true, if_false, getA_cons, ih hfind]

theorem getA_append_none {α β : Type} [BEq α]
    {m : List (α × β)} {k : α} (l2 : List (α × β))
    (hfind : m.find? (fun p => p.1 == k) = none) :
    getA (m ++ l2) k = getA l2 k := by
  induction m with
  | nil => simp
  | cons p rest ih =>
    rw [List.find?_cons] at hfind
    by_cases hp : (p.1 == k) = true
    · simp [hp] at hfind
    · simp only [Bool.not_eq_true] at hp
      simp only [hp] at hfind
      simp only [List.cons_append, getA_cons, hp, Bool.false_eq_true, if_false, ih hfind]

theorem getA_setA_self {α β : Type} [BEq α] [LawfulBEq α]
    (m : List (α × β)) (k : α) (v : β) : getA (setA m k v) k = some v := by
  unfold setA
  by_cases hfind : (m.find? (fun p => p.1 == k)).isSome
  · rw [if_pos hfind]
    exact getA_map_set_self m k v hfind
  · rw [if_neg hfind]
    rw [Option.not_isSome_iff_eq_none] at hfind
    rw [getA_append_none _ hfind, getA_cons]
    simp

theorem getA_map_set_ne {α β : Type} [BEq α] [LawfulBEq α]
    (m : List (α × β)) (k k2 : α) (v : β) (h : k2 ≠ k) :
    getA (m.map (fun p => if p.1 == k then (k, v) else p)) k2 = getA m k2 := by
  induction m with
  | nil => rfl
  | cons p rest ih =>
    by_cases hp : (p.1 == k) = true
    · have hp2 : p.1 = k := eq_of_beq hp
      have hk2 : (k == k2) = false := by
        simp only [beq_eq_false_iff_ne]
        exact fun hh => h hh.symm
      have hp3 : (p.1 == k2) = false := by rw [hp2]; exact hk2
      simp only [List.map_cons, if_pos hp, getA_cons, hk2, hp3, Bool.false_eq_true,
        if_false, ih]
    · simp only [Bool.not_eq_true] at hp
      simp only [List.map_cons, hp, Bool.false_eq_true, if_false, getA_cons, ih]

theorem getA_append_single_ne {α β : Type} [BEq α] [LawfulBEq α]
    (m : List (α × β)) (k k2 : α) (v : β) (h : k2 ≠ k) :
    getA (m ++ [(k, v)]) k2 = getA m k2 := by
  induction m with
  | nil =>
    have hk2 : (k == k2) = false := by
      simp only [beq_eq_false_iff_ne]
      exact fun hh => h hh.symm
    simp [getA_cons, hk2]
  | cons p rest ih =>
    simp only [List.cons_append, getA_cons, ih]

theorem getA_setA_ne {α β : Type} [BEq α] [LawfulBEq α]
    (m : List (α × β)) (k k2 : α) (v : β) (h : k2 ≠ k) :
    getA (setA m k v) k2 = getA m k2 := by
  unfold setA
  by_cases hfind : (m.find? (fun p => p.1 == k)).isSome
  · rw [if_pos hfind]
    exact getA_map_set_ne m k k2 v h
  · rw [if_neg hfind]
    exact getA_append_single_ne m k k2 v h

theorem mem_setA {α β : Type} [BEq α] {m : List (α × β)} {k : α} {v : β}
    {x : α × β} (hx : x ∈ setA m k v) : x = (k, v) ∨ x ∈ m := by
  unfold setA at hx
  by_cases hfind : (m.find? (fun p => p.1 == k)).isSome
  · rw [if_pos hfind] at hx
    rcases List.mem_map.mp hx with ⟨p, hp, hfp⟩
    by_cases hpk : (p.1 == k) = true
    · left
      rw [← hfp, if_pos hpk]
    · right
      rw [← hfp, if_neg hpk]
      exact hp
  · rw [if_neg hfind] at hx
    rcases List.mem_append.mp hx with h1 | h2
    · right; exact h1
    · left
      simpa using h2

theorem getA_mem {α β : Type} [BEq α] {m : List (α × β)} {k : α} {v : β}
    (h : getA m k = some v) : ∃ p ∈ m, p.2 = v := by
  unfold getA at h
  cases hf : m.find? (fun p => p.1 == k) with
  | none => rw [hf] at h; simp at h
  | some p =>
    rw [hf] at h
    exact ⟨p, List.mem_of_find?_eq_some hf, by simpa using h⟩

theorem getA_eq_none {α β : Type} [BEq α] [LawfulBEq α] {m : List (α × β)} {k : α}
    (h : ∀ p ∈ m, p.1 ≠ k) : getA m k = none := by
  induction m with
  | nil => rfl
  | cons p rest ih =>
    have hp : (p.1 == k) = false := by
      simp only [beq_eq_false_iff_ne]
      exact h p (List.mem_cons_self p rest)
    rw [getA_cons]
    simp only [hp, Bool.false_eq_true, if_false]
    exact ih fun q hq => h q (List.mem_cons_of_mem p hq)

/-- C8: `ArbSorter.encode` tokenizes by greedy longest match over the
alphabet's graphemes; with alphabet ["a","b","aa","c"], "aaba" tokenizes
as ["aa","b","a"], not ["a","a","b","a"], and encodes to the rank sort
key [2,1,0]. -/
theorem C8_greedy_longest_match :
    tokenizeWord (splitOrder ["a", "b", "aa", "c"]) "aaba".data = ["aa", "b", "a"] ∧
    tokenizeWord (splitOrder ["a", "b", "aa", "c"]) "aaba".data ≠ ["a", "a", "b", "a"] ∧
    (wordAsValues (ArbSorter.init ["a", "b", "aa", "c"] []) "aaba").2 = [2, 1, 0] :=
  ⟨by decide, by decide, by decide⟩

/-- C6 counterexample: with alphabet ["a"] and no ignorables, the single
call `word_as_values("xyaxy")` processes the out-of-vocabulary run "xy"
twice; the character x gets the same code (10000 + 120) both times, but
afterwards it occurs twice, not once, in the instance's `oovs` list. -/
theorem C6_counterexample :
    "x" ∉ (["a"] : List String) ∧
    (wordAsValues (ArbSorter.init ["a"] []) "xyaxy").1.oovs = ["x", "y", "x", "y"] ∧
    (wordAsValues (ArbSorter.init ["a"] []) "xyaxy").1.oovs.count "x" = 2 ∧
    (wordAsValues (ArbSorter.init ["a"] []) "xyaxy").2 =
      [oovStart + 120, oovStart + 121, 0, oovStart + 120, oovStart + 121] :=
  ⟨by decide, by decide, by decide, by decide⟩

/-- C2 counterexample: over the two entries
`{"entryID":"1","word":["a","b"]}` and `{"entryID":"2","word":"c"}`, the
idf document count for "word" is 3 (list elements counted), while the
claim's rule (entries with a non-empty value, counted once) gives 2. -/
theorem C2_counterexample :
    nDocuments [⟨"1", [("word", .vlist ["a", "b"])]⟩, ⟨"2", [("word", .vstr "c")]⟩]
      "word" = .ok 3 ∧
    nDocumentsClaim [⟨"1", [("word", .vlist ["a", "b"])]⟩, ⟨"2", [("word", .vstr "c")]⟩]
      "word" = 2 ∧
    (3 : Nat) ≠ 2 :=
  ⟨by decide, by decide, by decide⟩

/-- C2 amended: when every entry carries the field, the document count N
used by `_calculate_idf` equals the sum over all entries of: 0 for a
falsy (empty) value, 1 for a non-empty string value, and the full list
length for a non-empty list value — so an entry with a list value counts
once per element, not once. -/
theorem C2_amended_idf_document_count (raw : List Entry) (key : String)
    (h : ∀ e ∈ raw, (e.get key).isSome) :
    nDocuments raw key = .ok ((raw.map (fun e =>
      match e.get key with
      | some v => if truthyVal v then idfCount v else 0
      | none => 0)).sum) := by
  have go : ∀ (l : List Entry) (acc : Nat), (∀ e ∈ l, (e.get key).isSome) →
      nDocumentsGo key acc l = .ok (acc + (l.map (fun e =>
        match e.get key with
        | some v => if truthyVal v then idfCount v else 0
        | none => 0)).sum) := by
    intro l
    induction l with
    | nil => intro acc _; simp [nDocumentsGo]
    | cons e rest ih =>
      intro acc hl
      rcases Option.isSome_iff_exists.mp (hl e (List.mem_cons_self e rest)) with ⟨v, hv⟩
      have hrest : ∀ x ∈ rest, (x.get key).isSome :=
        fun x hx => hl x (List.mem_cons_of_mem e hx)
      rw [nDocumentsGo, hv]
      dsimp only
      rw [ih _ hrest]
      by_cases ht : truthyVal v = true
      · simp [hv, ht, Nat.add_assoc]
      · simp only [Bool.not_eq_true] at ht
        simp [hv, ht]
  have := go raw 0 h
  rw [nDocuments, this, Nat.zero_add]

/-- C2 witness: the amended count rule applied to a concrete corpus. -/
theorem C2_witness :
    nDocuments [⟨"1", [("word", .vlist ["a", "b", "c"])]⟩, ⟨"2", [("word", .vstr "d")]⟩,
        ⟨"3", [("word", .vstr "")]⟩] "word" =
      .ok (([⟨"1", [("word", .vlist ["a", "b", "c"])]⟩, ⟨"2", [("word", .vstr "d")]⟩,
        ⟨"3", [("word", .vstr "")]⟩] : List Entry).map (fun e =>
          match e.get "word" with
          | some v => if truthyVal v then idfCount v else 0
          | none => 0)).sum :=
  C2_amended_idf_document_count _ "word" (by decide)

/-- C3 counterexample: on the idf table {common: -3, rare: 1, x: 1} the
code's average (positive sum over the total number of terms) is 2/3,
while the claim's mean of positive idfs is 1; running the full pipeline
on a corpus producing exactly that table stores the corrected idf
epsilon * 2/3 = 1/6 for "common", not epsilon * 1 = 1/4. -/
theorem C3_counterexample :
    avgIdfCode [("common", -3), ("rare", 1), ("x", 1)] = 2 / 3 ∧
    avgIdfClaim [("common", -3), ("rare", 1), ("x", 1)] = 1 ∧
    ((2 : Rat) / 3) ≠ 1 ∧
    (match runIndex (fun x => x) none none ["word"]
        [⟨"1", [("word", .vstr "common rare")]⟩,
         ⟨"2", [("word", .vstr "common")]⟩,
         ⟨"3", [("word", .vstr "common x")]⟩] (3/4) (3/2) (1/4) with
      | .ok r => getA ((getA r.1 "word").getD []) "common"
      | .error _ => none) = some (1/6) :=
  ⟨by decide, by decide, by decide, by decide⟩

/-- C3 amended: the average idf `_calculate_score` uses to correct
negative idfs equals the sum of the field's strictly positive idf values
divided by the total number of the field's idf entries (terms with
non-positive idf are excluded from the numerator but still counted in the
denominator). -/
theorem C3_amended_average_idf (idfsKey : List (String × Rat)) :
    avgIdfCode idfsKey =
      ((idfsKey.map Prod.snd).filter (fun v => 0 < v)).sum / (idfsKey.length : Rat) := by
  have go : ∀ (l : List (String × Rat)) (acc : Rat),
      l.foldl (fun acc p => if 0 < p.2 then acc + p.2 else acc) acc =
        acc + ((l.map Prod.snd).filter (fun v => 0 < v)).sum := by
    intro l
    induction l with
    | nil => intro acc; simp
    | cons p rest ih =>
      intro acc
      by_cases hp : (0 : Rat) < p.2
      · rw [List.foldl_cons, if_pos hp, ih]
        simp [hp]
        ring
      · rw [List.foldl_cons, if_neg hp, ih]
        simp [hp]
  rw [avgIdfCode, sumPosIdfs, go, zero_add]

theorem calcIdfTerms_nil (log : Rat → Rat) (n : Nat) (counter : List (String × Nat)) :
    calcIdfTerms log n counter [] = .ok [] := rfl

/-- On an empty index (`self.data = {}`), `_calculate_idf` either raises
(a `KeyError` from `doc[key]`) or returns a table whose per-field idf
dicts are all empty. -/
theorem calcIdf_empty_data (log : Rat → Rat) (raw : List Entry)
    (docFreq : List (String × List (String × Nat))) :
    ∀ (ks : List String) (idfs : List (String × List (String × Rat))),
      (∀ p ∈ idfs, p.2 = []) →
      (∃ e, calcIdf log raw [] docFreq ks idfs = .error e) ∨
      (∃ idfs2, calcIdf log raw [] docFreq ks idfs = .ok idfs2 ∧ ∀ p ∈ idfs2, p.2 = []) := by
  intro ks
  induction ks with
  | nil =>
    intro idfs hinv
    right
    exact ⟨idfs, rfl, hinv⟩
  | cons key keys ih =>
    intro idfs hinv
    have hset : ∀ p ∈ setA idfs key ([] : List (String × Rat)), p.2 = [] := by
      intro p hp
      rcases mem_setA hp with h1 | h2
      · rw [h1]
      · exact hinv p h2
    cases hn : nDocuments raw key with
    | error e =>
      left
      exact ⟨e, by simp [calcIdf, hn]⟩
    | ok n =>
      cases hdf : getA docFreq key with
      | none =>
        have heq : calcIdf log raw [] docFreq (key :: keys) idfs =
            calcIdf log raw [] docFreq keys (setA idfs key []) := by
          simp [calcIdf, hn, hdf]
        rw [heq]
        exact ih _ hset
      | some counter =>
        have heq : calcIdf log raw [] docFreq (key :: keys) idfs =
            calcIdf log raw [] docFreq keys (setA idfs key []) := by
          simp [calcIdf, hn, hdf, calcIdfTerms_nil]
        rw [heq]
        exact ih _ hset

/-- `_calculate_score` over at least one field always raises when every
field's idf dict is empty (the average-idf division by
`len(self.IDFS[key])` divides by zero, or the field is missing). -/
theorem scoreKeys_empty_idfs (k1 b epsilon : Rat)
    (docLengths : List (String × List (String × Nat)))
    (idfs : List (String × List (String × Rat))) (data : IndexData)
    (key : String) (keys : List String)
    (hinv : ∀ p ∈ idfs, p.2 = []) :
    (scoreKeys k1 b epsilon docLengths (idfs, data) (key :: keys)).isOk = false := by
  rw [scoreKeys]
  cases hA : getA idfs key with
  | none => simp [scoreKey, hA, Except.isOk, Except.toBool]
  | some v =>
    have hv : v = [] := by
      rcases getA_mem hA with ⟨p, hp, hpv⟩
      rw [← hpv]
      exact hinv p hp
    subst hv
    simp [scoreKey, hA, Except.isOk, Except.toBool]

/-- C5 amended: `calculate_scores` does not build the index first (only
the legacy `_legacy_calculate_scores` does).  Invoked on an instance on
which `build()` has never run, with at least one indexed field, it always
raises (a `ZeroDivisionError` computing the per-field average idf over the
empty term table, or a `KeyError` from `_calculate_idf`) instead of
building and scoring. -/
theorem C5_amended_scores_without_build (log : Rat → Rat) (raw : List Entry)
    (b k1 epsilon : Rat) (key : String) (keys : List String) :
    (scoresWithoutBuild log (key :: keys) raw b k1 epsilon).isOk = false := by
  rw [scoresWithoutBuild, calculateScores]
  rcases calcIdf_empty_data log (sortEntries raw) [] (key :: keys) []
      (by intro p hp; cases hp) with ⟨e, he⟩ | ⟨idfs2, hok, hinv⟩
  · rw [he]
    rfl
  · rw [hok]
    exact scoreKeys_empty_idfs k1 b epsilon [] idfs2 [] key keys hinv

/-- With no entries at all, `_calculate_idf` succeeds and produces an
empty idf dict for every field. -/
theorem calcIdf_nil_raw (log : Rat → Rat) :
    ∀ (ks : List String) (idfs : List (String × List (String × Rat))),
      calcIdf log [] [] [] ks idfs =
        .ok (ks.foldl (fun m k => setA m k []) idfs) := by
  intro ks
  induction ks with
  | nil => intro idfs; rfl
  | cons key keys ih =>
    intro idfs
    rw [calcIdf]
    exact ih (setA idfs key [])

theorem getA_foldl_setA_nil (ks : List String)
    (m : List (String × List (String × Rat))) (k : String)
    (h : k ∈ ks ∨ getA m k = some []) :
    getA (ks.foldl (fun m k2 => setA m k2 []) m) k = some [] := by
  induction ks generalizing m with
  | nil =>
    rcases h with h1 | h2
    · cases h1
    · exact h2
  | cons k2 ks ih =>
    rw [List.foldl_cons]
    by_cases hk : k = k2
    · subst hk
      exact ih _ (Or.inr (getA_setA_self m k []))
    · rcases h with h1 | h2
      · rcases List.mem_cons.mp h1 with h3 | h4
        · exact absurd h3 hk
        · exact ih _ (Or.inl h4)
      · exact ih _ (Or.inr (by rw [getA_setA_ne m k2 k [] hk]; exact h2))

/-- C1 amended: over zero entries, `build()` yields the empty index and
empty side tables with no error, and `calculate_scores` with an empty
indexed-field list is a no-op; but with at least one indexed field,
`calculate_scores` on the zero-entry index always raises
`ZeroDivisionError` (the average-idf division by the zero length of the
field's empty idf dict). -/
theorem C1_empty_corpus (log : Rat → Rat) (norm stem : Option (String → String))
    (b k1 epsilon : Rat) (key : String) (keys : List String) :
    buildFromRaw norm stem (key :: keys) [] = ⟨[], [], []⟩ ∧
    runIndex log norm stem (key :: keys) [] b k1 epsilon =
      .error "ZeroDivisionError" ∧
    (∀ (raw : List Entry) (data : IndexData)
        (docFreq docLengths : List (String × List (String × Nat))),
      calculateScores log raw [] data docFreq docLengths b k1 epsilon = .ok ([], data)) := by
  refine ⟨rfl, ?_, fun raw data docFreq docLengths => rfl⟩
  show calculateScores log [] (key :: keys) [] [] [] b k1 epsilon =
    .error "ZeroDivisionError"
  rw [calculateScores, calcIdf_nil_raw]
  have hA : getA ((key :: keys).foldl (fun m k2 => setA m k2 []) []) key = some [] :=
    getA_foldl_setA_nil _ _ _ (Or.inl (List.mem_cons_self key keys))
  rw [List.foldl_cons] at hA
  simp [scoreKeys, scoreKey, hA]

/-- C1 counterexample: `build()` then `calculate_scores()` (default
parameters) on zero entries with the default indexed field list ["word"]
raises `ZeroDivisionError` instead of being an error-free no-op. -/
theorem C1_counterexample :
    runIndex (fun x => x) none none ["word"] [] (3/4) (3/2) (1/4) =
      .error "ZeroDivisionError" := by decide

/-- C5 counterexample: on the one-entry corpus
`{"entryID":"1","word":"hello"}` with field list ["word"],
`build()` followed by `calculate_scores()` succeeds, while
`calculate_scores()` without a prior `build()` raises `ZeroDivisionError`
— it does not build the index first. -/
theorem C5_counterexample :
    runIndex (fun x => x) none none ["word"] [⟨"1", [("word", .vstr "hello")]⟩]
        (3/4) (3/2) (1/4) =
      .ok ([("word", [("hello", 0)])],
        [("hello", [("1", ⟨[("word", 0)], [("word", 0), ("total", 0)]⟩)])]) ∧
    scoresWithoutBuild (fun x => x) ["word"] [⟨"1", [("word", .vstr "hello")]⟩]
        (3/4) (3/2) (1/4) =
      .error "ZeroDivisionError" :=
  ⟨by decide, by decide⟩

/-- C4 counterexample: for the entry `{"entryID":"1","word":["a b","c"]}`
the stored document length for ("word","1") is 1 — the token count of the
last list element "c" — not 3, the sum of the token counts of all
elements. -/
theorem C4_counterexample :
    getA ((getA (buildFromRaw none none ["word"]
        [⟨"1", [("word", .vlist ["a b", "c"])]⟩]).docLengths "word").getD []) "1" =
      some 1 ∧
    ((["a b", "c"].map (fun s => (processTerms none none s).length)).sum = 3) ∧
    (1 : Nat) ≠ 3 :=
  ⟨by decide, by decide, by decide⟩

/-- When some item lacks the sort field (and no earlier item carries a
non-string value there), the annotation loop of
`ArbSorter.return_sorted_data` raises a bare `KeyError` naming the
field. -/
theorem annotateItems_keyErr (target sortKey : String) :
    ∀ (items : List Item) (st : Sorter),
      (∀ item ∈ items,
        (match getA item target with
          | some (.ikey _) => false
          | _ => true) = true) →
      (∃ item ∈ items, getA item target = none) →
      annotateItems target sortKey st items = .error (.keyErr target) := by
  intro items
  induction items with
  | nil =>
    intro st _ hmiss
    rcases hmiss with ⟨item, hitem, _⟩
    cases hitem
  | cons item rest ih =>
    intro st hstr hmiss
    cases h : getA item target with
    | none => simp [annotateItems, h]
    | some v =>
      cases v with
      | ikey ks =>
        have := hstr item (List.mem_cons_self item rest)
        rw [h] at this
        cases this
      | istr s =>
        have hrest : ∃ x ∈ rest, getA x target = none := by
          rcases hmiss with ⟨x, hx, hxnone⟩
          rcases List.mem_cons.mp hx with h1 | h2
          · subst h1
            rw [h] at hxnone
            cases hxnone
          · exact ⟨x, h2, hxnone⟩
        have hstrRest : ∀ x ∈ rest,
            (match getA x target with
              | some (.ikey _) => false
              | _ => true) = true :=
          fun x hx => hstr x (List.mem_cons_of_mem item hx)
        simp only [annotateItems, h]
        rw [ih _ hstrRest hrest]

/-- C7: within `MTDictionary.initialize`, sorting data in which some
entry lacks the configured sorting field fails with a
`ConfigurationError` whose message names the missing field and lists the
first entry's field names — the sorter's bare `KeyError` is caught and
converted, not propagated. -/
theorem C7_missing_sort_field_config_error (alphabet noSortChars : List String)
    (target : String) (data : List Item)
    (hstr : ∀ item ∈ data,
      (match getA item target with
        | some (.ikey _) => false
        | _ => true) = true)
    (hmiss : ∃ item ∈ data, getA item target = none) :
    mtdSortStep alphabet noSortChars target data =
      .error (.configErr (configMsg target ((data.headD []).map Prod.fst))) := by
  rw [mtdSortStep, returnSortedData,
    annotateItems_keyErr target "sorting_form" data _ hstr hmiss]

/-- C7 witness: a concrete two-entry data set whose second entry lacks
the sorting field "word". -/
theorem C7_witness :
    mtdSortStep ["a"] [] "word"
        [[("word", .istr "hi")], [("definition", .istr "x")]] =
      .error (.configErr (configMsg "word"
        ((([[("word", IVal.istr "hi")], [("definition", IVal.istr "x")]] :
          List Item).headD []).map Prod.fst))) :=
  C7_missing_sort_field_config_error ["a"] [] "word"
    [[("word", .istr "hi")], [("definition", .istr "x")]]
    (by decide) (by decide)

theorem charsLt_irrefl : ∀ l : List Char, charsLt l l = false := by
  intro l
  induction l with
  | nil => rfl
  | cons a as ih => simp [charsLt, lt_irrefl, ih]

theorem charsLt_asymm : ∀ a b : List Char, charsLt a b = true → charsLt b a = false := by
  intro a
  induction a with
  | nil =>
    intro b hb
    cases b with
    | nil => cases hb
    | cons y ys => rfl
  | cons x xs ih =>
    intro b hb
    cases b with
    | nil => cases hb
    | cons y ys =>
      by_cases h1 : x < y
      · have h2 : ¬ y < x := lt_asymm h1
        simp [charsLt, h1, h2]
      · by_cases h3 : y < x
        · rw [charsLt, if_neg h1, if_pos h3] at hb
          cases hb
        · rw [charsLt, if_neg h1, if_neg h3] at hb
          simp [charsLt, h1, h3, ih ys hb]

theorem charsLt_notrans : ∀ (a b c : List Char), charsLt b a = false →
    charsLt c b = false → charsLt c a = false := by
  intro a
  induction a with
  | nil =>
    intro b c _ _
    cases c with
    | nil => rfl
    | cons z zs => rfl
  | cons x xs ih =>
    intro b c h1 h2
    cases b with
    | nil => cases h1
    | cons y ys =>
      cases c with
      | nil => cases h2
      | cons z zs =>
        by_cases hyx : y < x
        · rw [charsLt, if_pos hyx] at h1
          cases h1
        · by_cases hzy : z < y
          · rw [charsLt, if_pos hzy] at h2
            cases h2
          · have hxy : x ≤ y := le_of_not_lt hyx
            have hyz : y ≤ z := le_of_not_lt hzy
            have hzx : ¬ z < x := not_lt.mpr (le_trans hxy hyz)
            rw [charsLt, if_neg hzx]
            by_cases hxz : x < z
            · rw [if_pos hxz]
            · rw [if_neg hxz]
              have hxez : x = z := le_antisymm (hxy.trans hyz) (le_of_not_lt hxz)
              have hyez : y = z := le_antisymm hyz (by rw [← hxez]; exact hxy)
              have hnxy : ¬ x < y := by
                have hxey : x = y := by rw [hxez, hyez]
                rw [hxey]
                exact lt_irrefl y
              have hnyz : ¬ y < z := by rw [hyez]; exact lt_irrefl z
              rw [charsLt, if_neg hyx, if_neg hnxy] at h1
              rw [charsLt, if_neg hzy, if_neg hnyz] at h2
              exact ih ys zs h1 h2

theorem charsLt_eq_of_not : ∀ a b : List Char, charsLt a b = false →
    charsLt b a = false → a = b := by
  intro a
  induction a with
  | nil =>
    intro b h1 _
    cases b with
    | nil => rfl
    | cons y ys => cases h1
  | cons x xs ih =>
    intro b h1 h2
    cases b with
    | nil => cases h2
    | cons y ys =>
      by_cases hxy : x < y
      · rw [charsLt, if_pos hxy] at h1
        cases h1
      · by_cases hyx : y < x
        · rw [charsLt, if_pos hyx] at h2
          cases h2
        · have hxe : x = y := le_antisymm (le_of_not_lt hyx) (le_of_not_lt hxy)
          rw [charsLt, if_neg hxy, if_neg hyx] at h1
          rw [charsLt, if_neg hyx, if_neg hxy] at h2
          rw [hxe, ih ys h1 h2]

/-- Two permutation-equivalent entry lists with pairwise-distinct
`entryID`s sort identically under the constructor's stable
sort-by-entryID. -/
theorem sortEntries_eq_of_perm (l1 l2 : List Entry) (hp : l1.Perm l2)
    (hnd : (l1.map Entry.entryID).Nodup) : sortEntries l1 = sortEntries l2 := by
  have hr : ∀ a b : Entry, (strLe a.entryID b.entryID = true) ↔
      charsLt b.entryID.data a.entryID.data = false := by
    intro a b
    rw [strLe]
    cases charsLt b.entryID.data a.entryID.data <;> simp
  haveI htot : IsTotal Entry (fun a b => strLe a.entryID b.entryID = true) := by
    constructor
    intro a b
    by_cases h : charsLt b.entryID.data a.entryID.data = true
    · right
      rw [hr]
      exact charsLt_asymm _ _ h
    · left
      rw [hr]
      simpa using h
  haveI htrans : IsTrans Entry (fun a b => strLe a.entryID b.entryID = true) := by
    constructor
    intro a b c hab hbc
    rw [hr] at hab hbc ⊢
    exact charsLt_notrans _ _ _ hab hbc
  have s1 := List.sorted_insertionSort
    (fun a b : Entry => strLe a.entryID b.entryID = true) l1
  have s2 := List.sorted_insertionSort
    (fun a b : Entry => strLe a.entryID b.entryID = true) l2
  have p1 := List.perm_insertionSort
    (fun a b : Entry => strLe a.entryID b.entryID = true) l1
  have p2 := List.perm_insertionSort
    (fun a b : Entry => strLe a.entryID b.entryID = true) l2
  have hne1e : l1.Pairwise (fun a b : Entry => a.entryID ≠ b.entryID) :=
    List.pairwise_map.mp hnd
  have hne2e : l2.Pairwise (fun a b : Entry => a.entryID ≠ b.entryID) :=
    (hp.pairwise_iff (fun h => Ne.symm h)).mp hne1e
  have hnes1 : (List.insertionSort (fun a b : Entry => strLe a.entryID b.entryID = true)
      l1).Pairwise (fun a b : Entry => a.entryID ≠ b.entryID) :=
    (p1.pairwise_iff (fun h => Ne.symm h)).mpr hne1e
  have hnes2 : (List.insertionSort (fun a b : Entry => strLe a.entryID b.entryID = true)
      l2).Pairwise (fun a b : Entry => a.entryID ≠ b.entryID) :=
    (p2.pairwise_iff (fun h => Ne.symm h)).mpr hne2e
  have himp : ∀ a b : Entry, (strLe a.entryID b.entryID = true) →
      a.entryID ≠ b.entryID → charsLt a.entryID.data b.entryID.data = true := by
    intro a b hle hne
    rw [hr] at hle
    by_cases h : charsLt a.entryID.data b.entryID.data = true
    · exact h
    · have h2 : charsLt a.entryID.data b.entryID.data = false := by simpa using h
      have hdata : a.entryID.data = b.entryID.data := charsLt_eq_of_not _ _ h2 hle
      exact absurd (String.ext hdata) hne
  have sq1 := List.Pairwise.imp₂ himp s1 hnes1
  have sq2 := List.Pairwise.imp₂ himp s2 hnes2
  haveI : IsAntisymm Entry
      (fun a b : Entry => charsLt a.entryID.data b.entryID.data = true) := by
    constructor
    intro a b h1 h2
    have h3 := charsLt_asymm _ _ h1
    rw [h2] at h3
    cases h3
  exact List.eq_of_perm_of_sorted (p1.trans (hp.trans p2.symm)) sq1 sq2

/-- C10: over entry lists that are permutations of each other with
pairwise-distinct entryIDs, `InvertedIndex(...)` + `build()` produce
identical index data and identical document-frequency and
document-length tables, because the constructor re-sorts its copy of the
entries by entryID. -/
theorem C10_build_permutation_invariant (norm stem : Option (String → String))
    (keys : List String) (l1 l2 : List Entry) (hp : l1.Perm l2)
    (hnd : (l1.map Entry.entryID).Nodup) :
    buildFromRaw norm stem keys l1 = buildFromRaw norm stem keys l2 := by
  rw [buildFromRaw, buildFromRaw, sortEntries_eq_of_perm l1 l2 hp hnd]

/-- C10 witness: the two orderings of a concrete two-entry corpus build
identically. -/
theorem C10_witness :
    buildFromRaw none none ["word"]
        [⟨"1", [("word", .vstr "b")]⟩, ⟨"2", [("word", .vstr "a")]⟩] =
      buildFromRaw none none ["word"]
        [⟨"2", [("word", .vstr "a")]⟩, ⟨"1", [("word", .vstr "b")]⟩] :=
  C10_build_permutation_invariant none none ["word"] _ _
    (List.Perm.swap (⟨"2", [("word", .vstr "a")]⟩ : Entry)
      (⟨"1", [("word", .vstr "b")]⟩ : Entry) [])
    (by decide)

theorem matchGrapheme_nil_cs (gs : List String) : matchGrapheme gs [] = none := by
  induction gs with
  | nil => rfl
  | cons g gs ih =>
    rw [matchGrapheme]
    cases hd : g.data with
    | nil => simpa [hd] using ih
    | cons a as => simpa [hd, leadsWith] using ih

theorem leadsWith_singleton {pat : List Char} {c : Char}
    (h : leadsWith pat [c] = true) : pat = [] ∨ pat = [c] := by
  cases pat with
  | nil => exact Or.inl rfl
  | cons a as =>
    cases as with
    | nil =>
      rw [leadsWith] at h
      simp only [leadsWith, Bool.and_true] at h
      exact Or.inr (by rw [eq_of_beq h])
    | cons a2 as2 =>
      rw [leadsWith, leadsWith] at h
      simp at h

theorem matchGrapheme_singleton_none (gs : List String) (c : Char)
    (h : ∀ g ∈ gs, g ≠ String.mk [c]) : matchGrapheme gs [c] = none := by
  induction gs with
  | nil => rfl
  | cons g gs ih =>
    have hcond : (!g.data.isEmpty && leadsWith g.data [c]) = false := by
      by_cases hL : leadsWith g.data [c] = true
      · rcases leadsWith_singleton hL with h1 | h2
        · rw [h1]
          rfl
        · exact absurd (String.ext h2) (h g (List.mem_cons_self g gs))
      · simp [hL, Bool.not_eq_true _ ▸ hL]
    rw [matchGrapheme, hcond]
    simp only [Bool.false_eq_true, if_false]
    exact ih fun g2 hg2 => h g2 (List.mem_cons_of_mem g hg2)

theorem tokenizeWord_singleton (gs : List String) (c : Char)
    (h : matchGrapheme gs [c] = none) :
    tokenizeWord gs [c] = [String.mk [c]] := by
  rw [tokenizeWord]
  show tokenizeFuel gs 2 [] [c] = [String.mk [c]]
  rw [tokenizeFuel, h]
  rw [tokenizeFuel, matchGrapheme_nil_cs]
  rfl

theorem snd_mem_of_mem_enumFrom :
    ∀ (l : List String) (n : Nat) (p : Nat × String), p ∈ l.enumFrom n → p.2 ∈ l := by
  intro l
  induction l with
  | nil =>
    intro n p hp
    cases hp
  | cons a l ih =>
    intro n p hp
    rw [List.enumFrom] at hp
    rcases List.mem_cons.mp hp with h1 | h2
    · rw [h1]
      exact List.mem_cons_self a l
    · exact List.mem_cons_of_mem a (ih (n + 1) p h2)

theorem getA_foldl_enum_none (l : List (Nat × String))
    (m : List (String × Nat)) (k : String)
    (hl : ∀ p ∈ l, p.2 ≠ k) (hm : getA m k = none) :
    getA (l.foldl (fun m p => setA m p.2 p.1) m) k = none := by
  induction l generalizing m with
  | nil => exact hm
  | cons p l ih =>
    rw [List.foldl_cons]
    exact ih _ (fun q hq => hl q (List.mem_cons_of_mem p hq))
      (by rw [getA_setA_ne _ _ _ _ (fun hh => hl p (List.mem_cons_self p l) hh.symm)]
          exact hm)

theorem init_charToOrd_none (order ign : List String) (c : Char)
    (horder : String.mk [c] ∉ order) :
    getA (ArbSorter.init order ign).charToOrd (String.mk [c]) = none := by
  rw [ArbSorter.init]
  exact getA_foldl_enum_none _ _ _
    (fun p hp hpk => horder (hpk ▸ snd_mem_of_mem_enumFrom order 0 p hp))
    rfl

theorem tokenizeWord_singleton_of_init (order : List String) (c : Char)
    (horder : String.mk [c] ∉ order) :
    tokenizeWord (splitOrder order) [c] = [String.mk [c]] := by
  refine tokenizeWord_singleton _ _ (matchGrapheme_singleton_none _ _ ?_)
  intro g hg hgc
  exact horder (hgc ▸ ((List.perm_insertionSort _ order).mem_iff.mp hg))

/-- A repeat encode of a single out-of-vocabulary character whose code is
already recorded returns the recorded code and leaves the sorter state
unchanged. -/
theorem wordAsValues_singleton_again (order ign : List String) (c : Char)
    (st : Sorter) (v : Nat)
    (horder : String.mk [c] ∉ order) (hign : String.mk [c] ∉ ign)
    (hord : st.order = order) (hig : st.ignorable = ign)
    (hget : getA st.charToOrd (String.mk [c]) = some v) :
    wordAsValues st (String.mk [c]) = (st, [v]) := by
  rw [wordAsValues]
  have hw : (String.mk [c]).data = [c] := rfl
  rw [hw, hord, tokenizeWord_singleton_of_init order c horder]
  rw [valuesLoop]
  rw [if_neg (by rw [hig]; exact hign)]
  rw [hget]
  rfl

theorem oovLoop_single (st : Sorter) (c : Char)
    (h : String.mk [c] ∉ st.ignorable) :
    oovLoop st [c] =
      ({ st with
          charToOrd := setA st.charToOrd (String.mk [c]) (oovStart + c.toNat)
          ordToChar := setA st.ordToChar (oovStart + c.toNat) (String.mk [c])
          oovs := st.oovs ++ [String.mk [c]] }, [oovStart + c.toNat]) := by
  rw [oovLoop]
  dsimp only
  rw [if_neg h]
  rw [oovLoop]

theorem valuesLoop_oov_single (st : Sorter) (c : Char)
    (hig : String.mk [c] ∉ st.ignorable)
    (hnone : getA st.charToOrd (String.mk [c]) = none) :
    valuesLoop st [String.mk [c]] =
      ({ st with
          charToOrd := setA st.charToOrd (String.mk [c]) (oovStart + c.toNat)
          ordToChar := setA st.ordToChar (oovStart + c.toNat) (String.mk [c])
          oovs := st.oovs ++ [String.mk [c]] }, [oovStart + c.toNat]) := by
  rw [valuesLoop]
  dsimp only
  rw [if_neg hig, hnone]
  dsimp only
  rw [oovLoop_single st c hig]
  dsimp only
  rw [valuesLoop]
  rfl

/-- The first encode of a single out-of-vocabulary character: the value
list is the oov code, the character is recorded once in `oovs`, and the
constructor arguments are untouched. -/
theorem wordAsValues_singleton_first (order ign : List String) (c : Char)
    (horder : String.mk [c] ∉ order) (hign : String.mk [c] ∉ ign) :
    (wordAsValues (ArbSorter.init order ign) (String.mk [c])).2 =
      [oovStart + c.toNat] ∧
    (wordAsValues (ArbSorter.init order ign) (String.mk [c])).1.order = order ∧
    (wordAsValues (ArbSorter.init order ign) (String.mk [c])).1.ignorable = ign ∧
    (wordAsValues (ArbSorter.init order ign) (String.mk [c])).1.oovs = [String.mk [c]] ∧
    getA (wordAsValues (ArbSorter.init order ign) (String.mk [c])).1.charToOrd
      (String.mk [c]) = some (oovStart + c.toNat) := by
  have higf : (ArbSorter.init order ign).ignorable = ign := rfl
  have hmain : wordAsValues (ArbSorter.init order ign) (String.mk [c]) =
      ({ ArbSorter.init order ign with
          charToOrd := setA (ArbSorter.init order ign).charToOrd (String.mk [c])
            (oovStart + c.toNat)
          ordToChar := setA (ArbSorter.init order ign).ordToChar (oovStart + c.toNat)
            (String.mk [c])
          oovs := (ArbSorter.init order ign).oovs ++ [String.mk [c]] },
        [oovStart + c.toNat]) := by
    rw [wordAsValues]
    have hw : (String.mk [c]).data = [c] := rfl
    have hordf : (ArbSorter.init order ign).order = order := rfl
    rw [hw, hordf, tokenizeWord_singleton_of_init order c horder]
    exact valuesLoop_oov_single _ c (by rw [higf]; exact hign)
      (init_charToOrd_none order ign c horder)
  rw [hmain]
  refine ⟨rfl, rfl, rfl, rfl, ?_⟩
  exact getA_setA_self _ _ _

theorem encodeRepeat_fixed (order ign : List String) (c : Char) (v : Nat)
    (horder : String.mk [c] ∉ order) (hign : String.mk [c] ∉ ign) :
    ∀ (m : Nat) (st : Sorter), st.order = order → st.ignorable = ign →
      getA st.charToOrd (String.mk [c]) = some v →
      encodeRepeat (String.mk [c]) st m = (st, List.replicate m [v]) := by
  intro m
  induction m with
  | zero =>
    intro st _ _ _
    rfl
  | succ m ih =>
    intro st hord hig hget
    rw [encodeRepeat]
    rw [wordAsValues_singleton_again order ign c st v horder hign hord hig hget]
    dsimp only
    rw [ih st hord hig hget]
    rw [List.replicate_succ]

/-- C6 amended: when a character outside the alphabet and the ignorable
set is encoded as an isolated out-of-vocabulary chunk (here: as a
one-character word, any number of times on one sorter instance), every
encode call assigns the same code `oov_start + ord(c)` and the character
occurs exactly once in the instance's `oovs` diagnostic list.  (When the
character instead occurs inside a multi-character out-of-vocabulary run,
the run is re-expanded on every encounter and the character is
re-appended to `oovs` each time — see the counterexample.) -/
theorem C6_oov_stability_isolated (order ign : List String) (c : Char) (n : Nat)
    (horder : String.mk [c] ∉ order) (hign : String.mk [c] ∉ ign) :
    (encodeRepeat (String.mk [c]) (ArbSorter.init order ign) (n + 1)).2 =
      List.replicate (n + 1) [oovStart + c.toNat] ∧
    (encodeRepeat (String.mk [c]) (ArbSorter.init order ign) (n + 1)).1.oovs.count
      (String.mk [c]) = 1 := by
  obtain ⟨h2, hord, hig, hoovs, hget⟩ :=
    wordAsValues_singleton_first order ign c horder hign
  rw [encodeRepeat]
  dsimp only
  rw [encodeRepeat_fixed order ign c (oovStart + c.toNat) horder hign n _ hord hig hget]
  dsimp only
  rw [h2, hoovs]
  constructor
  · rw [List.replicate_succ]
  · simp

/-- C6 witness: the character x, alphabet ["a"], encoded twice as a
one-character word. -/
theorem C6_witness :
    (encodeRepeat (String.mk [Char.ofNat 120]) (ArbSorter.init ["a"] []) 2).2 =
      List.replicate 2 [oovStart + (Char.ofNat 120).toNat] ∧
    (encodeRepeat (String.mk [Char.ofNat 120]) (ArbSorter.init ["a"] []) 2).1.oovs.count
      (String.mk [Char.ofNat 120]) = 1 :=
  C6_oov_stability_isolated ["a"] [] (Char.ofNat 120) 1 (by decide) (by decide)

theorem processItem_obs_self (norm stem : Option (String → String)) (st : IndexState)
    (docId key itemKey raw : String) :
    getA ((getA (processItem norm stem st docId key itemKey raw).docLengths key).getD [])
      docId = some (processTerms norm stem raw).length := by
  show getA ((getA (setA st.docLengths key (setA ((getA st.docLengths key).getD [])
      docId (processTerms norm stem raw).length)) key).getD []) docId = _
  rw [getA_setA_self, Option.getD_some, getA_setA_self]

theorem processItem_obs_frame (norm stem : Option (String → String)) (st : IndexState)
    (docId key itemKey raw k2 tid : String) (hid : tid ≠ docId) :
    getA ((getA (processItem norm stem st docId key itemKey raw).docLengths k2).getD [])
      tid = getA ((getA st.docLengths k2).getD []) tid := by
  show getA ((getA (setA st.docLengths key (setA ((getA st.docLengths key).getD [])
      docId (processTerms norm stem raw).length)) k2).getD []) tid = _
  by_cases hk : k2 = key
  · subst hk
    rw [getA_setA_self, Option.getD_some, getA_setA_ne _ _ _ _ hid]
  · rw [getA_setA_ne _ _ _ _ hk]

theorem processItem_obs_frame_key (norm stem : Option (String → String)) (st : IndexState)
    (docId key itemKey raw k2 tid : String) (hk : k2 ≠ key) :
    getA ((getA (processItem norm stem st docId key itemKey raw).docLengths k2).getD [])
      tid = getA ((getA st.docLengths k2).getD []) tid := by
  show getA ((getA (setA st.docLengths key (setA ((getA st.docLengths key).getD [])
      docId (processTerms norm stem raw).length)) k2).getD []) tid = _
  rw [getA_setA_ne _ _ _ _ hk]

theorem processItems_obs_frame (norm stem : Option (String → String)) (docId key : String) :
    ∀ (vs : List String) (st : IndexState) (i : Nat) (k2 tid : String), tid ≠ docId →
      getA ((getA (processItems norm stem docId key st i vs).docLengths k2).getD []) tid =
        getA ((getA st.docLengths k2).getD []) tid := by
  intro vs
  induction vs with
  | nil =>
    intro st i k2 tid _
    rfl
  | cons v vs ih =>
    intro st i k2 tid hid
    rw [processItems]
    rw [ih _ _ _ _ hid, processItem_obs_frame _ _ _ _ _ _ _ _ _ hid]

theorem processItems_obs_frame_key (norm stem : Option (String → String))
    (docId key : String) :
    ∀ (vs : List String) (st : IndexState) (i : Nat) (k2 tid : String), k2 ≠ key →
      getA ((getA (processItems norm stem docId key st i vs).docLengths k2).getD []) tid =
        getA ((getA st.docLengths k2).getD []) tid := by
  intro vs
  induction vs with
  | nil =>
    intro st i k2 tid _
    rfl
  | cons v vs ih =>
    intro st i k2 tid hk
    rw [processItems]
    rw [ih _ _ _ _ hk, processItem_obs_frame_key _ _ _ _ _ _ _ _ _ hk]

theorem processItems_obs_self (norm stem : Option (String → String)) (docId key : String) :
    ∀ (vs : List String) (v : String) (st : IndexState) (i : Nat),
      getA ((getA (processItems norm stem docId key st i (v :: vs)).docLengths key).getD [])
        docId = lastItemTokenCount norm stem (.vlist (v :: vs)) := by
  intro vs
  induction vs with
  | nil =>
    intro v st i
    rw [processItems, processItems]
    rw [processItem_obs_self]
    rw [lastItemTokenCount]
    rfl
  | cons w ws ih =>
    intro v st i
    rw [processItems]
    rw [ih w _ (i + 1)]
    rw [lastItemTokenCount, lastItemTokenCount, List.getLast?_cons_cons]

theorem buildEntryKey_obs_frame_id (norm stem : Option (String → String))
    (st : IndexState) (e : Entry) (key k2 tid : String) (hid : tid ≠ e.entryID) :
    getA ((getA (buildEntryKey norm stem st e key).docLengths k2).getD []) tid =
      getA ((getA st.docLengths k2).getD []) tid := by
  rw [buildEntryKey]
  cases hg : e.get key with
  | none => rfl
  | some v =>
    cases v with
    | vstr s => exact processItem_obs_frame _ _ _ _ _ _ _ _ _ hid
    | vlist l => exact processItems_obs_frame _ _ _ _ l st 0 k2 tid hid

theorem buildEntryKey_obs_frame_key (norm stem : Option (String → String))
    (st : IndexState) (e : Entry) (key k2 tid : String) (hk : k2 ≠ key) :
    getA ((getA (buildEntryKey norm stem st e key).docLengths k2).getD []) tid =
      getA ((getA st.docLengths k2).getD []) tid := by
  rw [buildEntryKey]
  cases hg : e.get key with
  | none => rfl
  | some v =>
    cases v with
    | vstr s => exact processItem_obs_frame_key _ _ _ _ _ _ _ _ _ hk
    | vlist l => exact processItems_obs_frame_key _ _ _ _ l st 0 k2 tid hk

theorem buildEntryKey_obs_self (norm stem : Option (String → String))
    (st : IndexState) (e : Entry) (key : String) :
    getA ((getA (buildEntryKey norm stem st e key).docLengths key).getD []) e.entryID =
      ((e.get key).bind (lastItemTokenCount norm stem)).or
        (getA ((getA st.docLengths key).getD []) e.entryID) := by
  rw [buildEntryKey]
  cases hg : e.get key with
  | none => rw [Option.none_bind, Option.none_or]
  | some v =>
    cases v with
    | vstr s =>
      rw [processItem_obs_self, Option.some_bind, lastItemTokenCount, Option.or_some]
    | vlist l =>
      cases l with
      | nil =>
        dsimp only
        show getA ((getA st.docLengths key).getD []) e.entryID = _
        rw [Option.some_bind]
        simp [lastItemTokenCount]
      | cons v vs =>
        rw [processItems_obs_self, Option.some_bind]
        rw [lastItemTokenCount]
        cases hlast : (v :: vs).getLast? with
        | none => simp at hlast
        | some x => simp

theorem buildEntry_obs (norm stem : Option (String → String)) (e : Entry) (key : String) :
    ∀ (ks : List String) (st : IndexState),
      getA ((getA (buildEntry norm stem ks st e).docLengths key).getD []) e.entryID =
        if key ∈ ks then
          ((e.get key).bind (lastItemTokenCount norm stem)).or
            (getA ((getA st.docLengths key).getD []) e.entryID)
        else getA ((getA st.docLengths key).getD []) e.entryID := by
  intro ks
  induction ks with
  | nil =>
    intro st
    simp [buildEntry]
  | cons k ks ih =>
    intro st
    have hfold : buildEntry norm stem (k :: ks) st e =
        buildEntry norm stem ks (buildEntryKey norm stem st e k) e := by
      rw [buildEntry, List.foldl_cons]
      rfl
    rw [hfold, ih]
    by_cases hk : k = key
    · rw [hk]
      rw [buildEntryKey_obs_self]
      by_cases hmem : key ∈ ks
      · rw [if_pos hmem, if_pos (List.mem_cons_self key ks)]
        rw [← Option.or_assoc, Option.or_self]
      · rw [if_neg hmem, if_pos (List.mem_cons_self key ks)]
    · rw [buildEntryKey_obs_frame_key _ _ _ _ _ _ _ (fun hh => hk hh.symm)]
      by_cases hmem : key ∈ ks
      · rw [if_pos hmem, if_pos (List.mem_cons_of_mem k hmem)]
      · rw [if_neg hmem, if_neg (by
          intro hcontra
          rcases List.mem_cons.mp hcontra with h1 | h2
          · exact hk h1.symm
          · exact hmem h2)]

theorem buildEntry_obs_frame_id (norm stem : Option (String → String)) (e : Entry)
    (k2 tid : String) (hid : tid ≠ e.entryID) :
    ∀ (ks : List String) (st : IndexState),
      getA ((getA (buildEntry norm stem ks st e).docLengths k2).getD []) tid =
        getA ((getA st.docLengths k2).getD []) tid := by
  intro ks
  induction ks with
  | nil =>
    intro st
    rfl
  | cons k ks ih =>
    intro st
    have hfold : buildEntry norm stem (k :: ks) st e =
        buildEntry norm stem ks (buildEntryKey norm stem st e k) e := by
      rw [buildEntry, List.foldl_cons]
      rfl
    rw [hfold, ih, buildEntryKey_obs_frame_id _ _ _ _ _ _ _ hid]

theorem foldl_buildEntry_frame (norm stem : Option (String → String)) (keys : List String)
    (k2 tid : String) :
    ∀ (l : List Entry) (st : IndexState), (∀ x ∈ l, x.entryID ≠ tid) →
      getA ((getA (l.foldl (buildEntry norm stem keys) st).docLengths k2).getD []) tid =
        getA ((getA st.docLengths k2).getD []) tid := by
  intro l
  induction l with
  | nil =>
    intro st _
    rfl
  | cons x l ih =>
    intro st h
    rw [List.foldl_cons]
    rw [ih _ (fun y hy => h y (List.mem_cons_of_mem x hy))]
    exact buildEntry_obs_frame_id _ _ _ _ _
      (fun hh => h x (List.mem_cons_self x l) hh.symm) keys st

/-- C4 amended: after `build()` over entries with pairwise-distinct
entryIDs, the stored document length for (field, entryID) equals the
token count of the entry's LAST resolved value item for that field (the
single value for a string field; the final list element for a list
field), because each item's count overwrites the previous one — not the
sum over all items.  A missing field or an empty list leaves no stored
length. -/
theorem C4_amended_document_length (norm stem : Option (String → String))
    (keys : List String) (key : String) (raw : List Entry) (e : Entry)
    (hnd : (raw.map Entry.entryID).Nodup) (he : e ∈ raw) (hk : key ∈ keys) :
    getA ((getA (buildFromRaw norm stem keys raw).docLengths key).getD []) e.entryID =
      (e.get key).bind (lastItemTokenCount norm stem) := by
  rw [buildFromRaw]
  have hperm : (sortEntries raw).Perm raw :=
    List.perm_insertionSort (fun a b : Entry => strLe a.entryID b.entryID = true) raw
  have he2 : e ∈ sortEntries raw := hperm.mem_iff.mpr he
  have hnd2 : ((sortEntries raw).map Entry.entryID).Nodup :=
    ((hperm.map Entry.entryID).nodup_iff).mpr hnd
  rcases List.append_of_mem he2 with ⟨s, t, hst⟩
  rw [hst] at hnd2
  rw [List.map_append, List.map_cons] at hnd2
  rcases List.nodup_append.mp hnd2 with ⟨hnds, hndet, hdisj⟩
  have htids : ∀ x ∈ t, x.entryID ≠ e.entryID := by
    intro x hx hxe
    have hmem : e.entryID ∈ t.map Entry.entryID := by
      rw [← hxe]
      exact List.mem_map_of_mem Entry.entryID hx
    exact (List.nodup_cons.mp hndet).1 hmem
  have hsids : ∀ x ∈ s, x.entryID ≠ e.entryID := by
    intro x hx hxe
    exact hdisj (List.mem_map_of_mem Entry.entryID hx)
      (by rw [hxe]; exact List.mem_cons_self _ _)
  rw [buildState, hst, List.foldl_append, List.foldl_cons]
  rw [foldl_buildEntry_frame norm stem keys key e.entryID t _ htids]
  rw [buildEntry_obs norm stem e key keys _]
  rw [if_pos hk]
  rw [foldl_buildEntry_frame norm stem keys key e.entryID s _ hsids]
  show ((e.get key).bind (lastItemTokenCount norm stem)).or
    (getA ((getA ([] : List (String × List (String × Nat))) key).getD []) e.entryID) = _
  rw [getA_nil, Option.getD_none, getA_nil, Option.or_none]

/-- C4 witness: a concrete list-valued field whose last element has one
token. -/
theorem C4_witness :
    getA ((getA (buildFromRaw none none ["word"]
        [⟨"1", [("word", .vlist ["a b", "c"])]⟩, ⟨"2", [("word", .vstr "d e")]⟩]).docLengths
        "word").getD []) "1" =
      ((⟨"1", [("word", .vlist ["a b", "c"])]⟩ : Entry).get "word").bind
        (lastItemTokenCount none none) :=
  C4_amended_document_length none none ["word"] "word"
    [⟨"1", [("word", .vlist ["a b", "c"])]⟩, ⟨"2", [("word", .vstr "d e")]⟩]
    ⟨"1", [("word", .vlist ["a b", "c"])]⟩
    (by decide) (by decide) (by decide)

theorem addIndex_noScores (data : IndexData) (term docId key : String) (j : Nat)
    (h : ∀ tp ∈ data, ∀ dp ∈ tp.2, dp.2.score = []) :
    ∀ tp ∈ addIndex data term docId key j, ∀ dp ∈ tp.2, dp.2.score = [] := by
  intro tp htp dp hdp
  rw [addIndex] at htp
  cases hg : getA data term with
  | none =>
    rw [hg] at htp
    rcases List.mem_append.mp htp with h1 | h2
    · exact h tp h1 dp hdp
    · have : tp = (term, [(docId, ⟨[(key, j)], []⟩)]) := by simpa using h2
      rw [this] at hdp
      have : dp = (docId, ⟨[(key, j)], []⟩) := by simpa using hdp
      rw [this]
  | some postings =>
    rw [hg] at htp
    dsimp only at htp
    have hpostings : ∀ dp2 ∈ postings, dp2.2.score = [] := by
      rcases getA_mem hg with ⟨tp0, htp0, htp0v⟩
      intro dp2 hdp2
      exact h tp0 htp0 dp2 (htp0v ▸ hdp2)
    cases hgp : getA postings docId with
    | none =>
      rw [hgp] at htp
      dsimp only at htp
      rcases mem_setA htp with h1 | h2
      · rw [h1] at hdp
        rcases List.mem_append.mp hdp with h3 | h4
        · exact hpostings dp h3
        · have : dp = (docId, ⟨[(key, j)], []⟩) := by simpa using h4
          rw [this]
      · exact h tp h2 dp hdp
    | some p =>
      rw [hgp] at htp
      dsimp only at htp
      rcases mem_setA htp with h1 | h2
      · rw [h1] at hdp
        rcases mem_setA hdp with h3 | h4
        · rw [h3]
          dsimp only
          rcases getA_mem hgp with ⟨dp0, hdp0, hdp0v⟩
          rw [← hdp0v] at *
          exact hpostings dp0 hdp0
        · exact hpostings dp h4
      · exact h tp h2 dp hdp

theorem indexTermsFrom_noScores (docId itemKey : String) :
    ∀ (terms : List String) (j : Nat) (data : IndexData),
      (∀ tp ∈ data, ∀ dp ∈ tp.2, dp.2.score = []) →
      ∀ tp ∈ indexTermsFrom docId itemKey j data terms, ∀ dp ∈ tp.2, dp.2.score = [] := by
  intro terms
  induction terms with
  | nil =>
    intro j data h
    exact h
  | cons t ts ih =>
    intro j data h
    rw [indexTermsFrom]
    exact ih (j + 1) _ (addIndex_noScores data t docId itemKey j h)

theorem processItem_noScores (norm stem : Option (String → String)) (st : IndexState)
    (docId key itemKey raw : String)
    (h : ∀ tp ∈ st.data, ∀ dp ∈ tp.2, dp.2.score = []) :
    ∀ tp ∈ (processItem norm stem st docId key itemKey raw).data,
      ∀ dp ∈ tp.2, dp.2.score = [] := by
  exact indexTermsFrom_noScores docId itemKey _ 0 st.data h

theorem processItems_noScores (norm stem : Option (String → String)) (docId key : String) :
    ∀ (vs : List String) (st : IndexState) (i : Nat),
      (∀ tp ∈ st.data, ∀ dp ∈ tp.2, dp.2.score = []) →
      ∀ tp ∈ (processItems norm stem docId key st i vs).data,
        ∀ dp ∈ tp.2, dp.2.score = [] := by
  intro vs
  induction vs with
  | nil =>
    intro st i h
    exact h
  | cons v vs ih =>
    intro st i h
    rw [processItems]
    exact ih _ (i + 1) (processItem_noScores norm stem st docId key _ v h)

theorem buildEntryKey_noScores (norm stem : Option (String → String)) (st : IndexState)
    (e : Entry) (key : String)
    (h : ∀ tp ∈ st.data, ∀ dp ∈ tp.2, dp.2.score = []) :
    ∀ tp ∈ (buildEntryKey norm stem st e key).data, ∀ dp ∈ tp.2, dp.2.score = [] := by
  rw [buildEntryKey]
  cases hg : e.get key with
  | none => exact h
  | some v =>
    cases v with
    | vstr s => exact processItem_noScores norm stem st e.entryID key key s h
    | vlist l => exact processItems_noScores norm stem e.entryID key l st 0 h

theorem buildEntry_noScores (norm stem : Option (String → String)) (e : Entry) :
    ∀ (ks : List String) (st : IndexState),
      (∀ tp ∈ st.data, ∀ dp ∈ tp.2, dp.2.score = []) →
      ∀ tp ∈ (buildEntry norm stem ks st e).data, ∀ dp ∈ tp.2, dp.2.score = [] := by
  intro ks
  induction ks with
  | nil =>
    intro st h
    exact h
  | cons k ks ih =>
    intro st h
    have hfold : buildEntry norm stem (k :: ks) st e =
        buildEntry norm stem ks (buildEntryKey norm stem st e k) e := by
      rw [buildEntry, List.foldl_cons]
      rfl
    rw [hfold]
    exact ih _ (buildEntryKey_noScores norm stem st e k h)

theorem buildState_noScores (norm stem : Option (String → String)) (keys : List String) :
    ∀ (raw : List Entry) (st : IndexState),
      (∀ tp ∈ st.data, ∀ dp ∈ tp.2, dp.2.score = []) →
      ∀ tp ∈ (raw.foldl (buildEntry norm stem keys) st).data,
        ∀ dp ∈ tp.2, dp.2.score = [] := by
  intro raw
  induction raw with
  | nil =>
    intro st h
    exact h
  | cons e raw ih =>
    intro st h
    rw [List.foldl_cons]
    exact ih _ (buildEntry_noScores norm stem e keys st h)

theorem buildFromRaw_noScores (norm stem : Option (String → String)) (keys : List String)
    (raw : List Entry) :
    ∀ tp ∈ (buildFromRaw norm stem keys raw).data, ∀ dp ∈ tp.2, dp.2.score = [] := by
  rw [buildFromRaw, buildState]
  exact buildState_noScores norm stem keys (sortEntries raw) ⟨[], [], []⟩
    (by intro tp htp; cases htp)

theorem applyScore_nonneg (p : Posting) (key : String) (s : Rat)
    (hp : ∀ kv ∈ p.score, 0 ≤ kv.2) (hs : 0 ≤ s) :
    ∀ kv ∈ (applyScore p key s).score, 0 ≤ kv.2 := by
  have hsc : ∀ kv ∈ setA p.score key s, 0 ≤ kv.2 := by
    intro q hq
    rcases mem_setA hq with h1 | h2
    · rw [h1]
      exact hs
    · exact hp q h2
  intro kv hkv
  rw [applyScore] at hkv
  cases hg : getA (setA p.score key s) "total" with
  | none =>
    rw [hg] at hkv
    dsimp only at hkv
    rcases List.mem_append.mp hkv with h1 | h2
    · exact hsc kv h1
    · have : kv = ("total", s) := by simpa using h2
      rw [this]
      exact hs
  | some t =>
    rw [hg] at hkv
    dsimp only at hkv
    have ht : 0 ≤ t := by
      rcases getA_mem hg with ⟨q, hq, hqv⟩
      rw [← hqv]
      exact hsc q hq
    rcases mem_setA hkv with h1 | h2
    · rw [h1]
      exact add_nonneg ht hs
    · exact hsc kv h2

theorem scorePostings_nonneg (k1 b epsilon avgIdf avgDocLen : Rat) (key : String)
    (dls : List (String × Nat))
    (hk1 : 0 ≤ k1) (hb0 : 0 ≤ b) (hb1 : b ≤ 1) (heps : 0 ≤ epsilon)
    (havg : 0 ≤ avgIdf) (hadl : 0 ≤ avgDocLen) :
    ∀ (ps : List (String × Posting)) (idf idf2 : Rat) (ps2 : List (String × Posting)),
      (∀ dp ∈ ps, ∀ kv ∈ dp.2.score, 0 ≤ kv.2) →
      scorePostings k1 b epsilon avgIdf avgDocLen key dls idf ps = .ok (idf2, ps2) →
      ∀ dp ∈ ps2, ∀ kv ∈ dp.2.score, 0 ≤ kv.2 := by
  intro ps
  induction ps with
  | nil =>
    intro idf idf2 ps2 _ hok dp hdp
    rw [scorePostings] at hok
    cases hok
    cases hdp
  | cons hd rest ih =>
    intro idf idf2 ps2 hps hok
    obtain ⟨docId, p⟩ := hd
    rw [scorePostings] at hok
    dsimp only at hok
    split at hok
    · cases hok
    · split at hok
      · cases hok
      · split at hok
        · cases hok
        · rename_i heq
          cases hok
          intro dp hdp
          rcases List.mem_cons.mp hdp with h1 | h2
          · rw [h1]
            dsimp only
            refine applyScore_nonneg p key _
              (hps (docId, p) (List.mem_cons_self _ _)) ?_
            refine mul_nonneg ?_ (div_nonneg (mul_nonneg (Nat.cast_nonneg _)
              (by linarith)) ?_)
            · by_cases h : idf < 0
              · rw [if_pos h]
                exact mul_nonneg heps havg
              · rw [if_neg h]
                exact le_of_not_lt h
            · exact add_nonneg (Nat.cast_nonneg _) (mul_nonneg hk1
                (add_nonneg (sub_nonneg.mpr hb1)
                  (div_nonneg (mul_nonneg hb0 (Nat.cast_nonneg _)) hadl)))
          · exact ih _ _ _ (fun dp2 hdp2 => hps dp2 (List.mem_cons_of_mem _ hdp2))
              heq dp h2

theorem scoreTerms_nonneg (k1 b epsilon avgIdf avgDocLen : Rat) (key : String)
    (dls : List (String × Nat))
    (hk1 : 0 ≤ k1) (hb0 : 0 ≤ b) (hb1 : b ≤ 1) (heps : 0 ≤ epsilon)
    (havg : 0 ≤ avgIdf) (hadl : 0 ≤ avgDocLen) :
    ∀ (data : List (String × List (String × Posting)))
      (idfsKey idfsKey2 : List (String × Rat)) (data2 : IndexData),
      (∀ tp ∈ data, ∀ dp ∈ tp.2, ∀ kv ∈ dp.2.score, 0 ≤ kv.2) →
      scoreTerms k1 b epsilon avgIdf avgDocLen key dls idfsKey data =
        .ok (idfsKey2, data2) →
      ∀ tp ∈ data2, ∀ dp ∈ tp.2, ∀ kv ∈ dp.2.score, 0 ≤ kv.2 := by
  intro data
  induction data with
  | nil =>
    intro idfsKey idfsKey2 data2 _ hok tp htp
    rw [scoreTerms] at hok
    cases hok
    cases htp
  | cons hd rest ih =>
    intro idfsKey idfsKey2 data2 hdata hok
    obtain ⟨term, postings⟩ := hd
    rw [scoreTerms] at hok
    cases hidf0 : getA idfsKey term with
    | none =>
      rw [hidf0] at hok
      cases hok
    | some idf0 =>
      rw [hidf0] at hok
      dsimp only at hok
      cases hpost : scorePostings k1 b epsilon avgIdf avgDocLen key dls idf0 postings with
      | error e =>
        rw [hpost] at hok
        cases hok
      | ok pr =>
        obtain ⟨idf1, postings2⟩ := pr
        rw [hpost] at hok
        dsimp only at hok
        cases hrest : scoreTerms k1 b epsilon avgIdf avgDocLen key dls
            (setA idfsKey term idf1) rest with
        | error e =>
          rw [hrest] at hok
          cases hok
        | ok pr2 =>
          obtain ⟨idfsKey3, rest2⟩ := pr2
          rw [hrest] at hok
          dsimp only at hok
          cases hok
          intro tp htp
          rcases List.mem_cons.mp htp with h1 | h2
          · rw [h1]
            dsimp only
            exact scorePostings_nonneg k1 b epsilon avgIdf avgDocLen key dls
              hk1 hb0 hb1 heps havg hadl postings idf0 idf1 postings2
              (hdata (term, postings) (List.mem_cons_self _ _)) hpost
          · exact ih _ _ _ (fun tp2 htp2 => hdata tp2 (List.mem_cons_of_mem _ htp2))
              hrest tp h2

theorem sumPosIdfs_nonneg (l : List (String × Rat)) : 0 ≤ sumPosIdfs l := by
  have go : ∀ (l : List (String × Rat)) (acc : Rat), 0 ≤ acc →
      0 ≤ l.foldl (fun acc p => if 0 < p.2 then acc + p.2 else acc) acc := by
    intro l
    induction l with
    | nil =>
      intro acc h
      exact h
    | cons p rest ih =>
      intro acc h
      rw [List.foldl_cons]
      by_cases hp : (0 : Rat) < p.2
      · rw [if_pos hp]
        exact ih _ (add_nonneg h (le_of_lt hp))
      · rw [if_neg hp]
        exact ih _ h
  exact go l 0 le_rfl

theorem avgIdfCode_nonneg (l : List (String × Rat)) : 0 ≤ avgIdfCode l :=
  div_nonneg (sumPosIdfs_nonneg l) (Nat.cast_nonneg _)

theorem scoreKey_nonneg (k1 b epsilon : Rat)
    (docLengths : List (String × List (String × Nat)))
    (hk1 : 0 ≤ k1) (hb0 : 0 ≤ b) (hb1 : b ≤ 1) (heps : 0 ≤ epsilon)
    (st : List (String × List (String × Rat)) × IndexData) (key : String)
    (st2 : List (String × List (String × Rat)) × IndexData)
    (hdata : ∀ tp ∈ st.2, ∀ dp ∈ tp.2, ∀ kv ∈ dp.2.score, 0 ≤ kv.2)
    (hok : scoreKey k1 b epsilon docLengths st key = .ok st2) :
    ∀ tp ∈ st2.2, ∀ dp ∈ tp.2, ∀ kv ∈ dp.2.score, 0 ≤ kv.2 := by
  rw [scoreKey] at hok
  cases hidfs : getA st.1 key with
  | none =>
    rw [hidfs] at hok
    cases hok
  | some idfsKey =>
    rw [hidfs] at hok
    dsimp only at hok
    by_cases hlen : idfsKey.length = 0
    · rw [if_pos hlen] at hok
      cases hok
    · rw [if_neg hlen] at hok
      cases hdls : getA docLengths key with
      | none =>
        rw [hdls] at hok
        cases hok
      | some dls =>
        rw [hdls] at hok
        dsimp only at hok
        by_cases hdlen : dls.length = 0
        · rw [if_pos hdlen] at hok
          cases hok
        · rw [if_neg hdlen] at hok
          cases hterms : scoreTerms k1 b epsilon (avgIdfCode idfsKey)
              ((dls.map (fun p => (p.2 : Rat))).sum / (dls.length : Rat))
              key dls idfsKey st.2 with
          | error e =>
            rw [hterms] at hok
            cases hok
          | ok pr =>
            obtain ⟨idfsKey2, data2⟩ := pr
            rw [hterms] at hok
            dsimp only at hok
            cases hok
            have hadl : 0 ≤ ((dls.map (fun p => (p.2 : Rat))).sum) / (dls.length : Rat) :=
              div_nonneg (List.sum_nonneg (by
                intro x hx
                rcases List.mem_map.mp hx with ⟨q, _, hq⟩
                rw [← hq]
                exact Nat.cast_nonneg _)) (Nat.cast_nonneg _)
            exact scoreTerms_nonneg k1 b epsilon (avgIdfCode idfsKey) _ key dls
              hk1 hb0 hb1 heps (avgIdfCode_nonneg idfsKey) hadl
              st.2 idfsKey idfsKey2 data2 hdata hterms

theorem scoreKeys_nonneg (k1 b epsilon : Rat)
    (docLengths : List (String × List (String × Nat)))
    (hk1 : 0 ≤ k1) (hb0 : 0 ≤ b) (hb1 : b ≤ 1) (heps : 0 ≤ epsilon) :
    ∀ (ks : List String) (st res : List (String × List (String × Rat)) × IndexData),
      (∀ tp ∈ st.2, ∀ dp ∈ tp.2, ∀ kv ∈ dp.2.score, 0 ≤ kv.2) →
      scoreKeys k1 b epsilon docLengths st ks = .ok res →
      ∀ tp ∈ res.2, ∀ dp ∈ tp.2, ∀ kv ∈ dp.2.score, 0 ≤ kv.2 := by
  intro ks
  induction ks with
  | nil =>
    intro st res hdata hok
    rw [scoreKeys] at hok
    cases hok
    exact hdata
  | cons key ks ih =>
    intro st res hdata hok
    rw [scoreKeys] at hok
    split at hok
    · cases hok
    · rename_i st2 hst2
      exact ih st2 res (scoreKey_nonneg k1 b epsilon docLengths hk1 hb0 hb1 heps
        st key st2 hdata hst2) hok

/-- C9: after `build()` followed by a successful `calculate_scores(b, k1,
epsilon)` with parameters in the BM25 ranges (k1 >= 0, 0 <= b <= 1,
epsilon >= 0; the defaults 1.5, 0.75, 0.25 qualify), every stored score
value — each per-field score and the aggregate total — is non-negative:
any negative idf has been replaced by epsilon times the field's average
idf before scoring. -/
theorem C9_scores_nonneg (log : Rat → Rat) (norm stem : Option (String → String))
    (keys : List String) (raw : List Entry) (b k1 epsilon : Rat)
    (res : List (String × List (String × Rat)) × IndexData)
    (hk1 : 0 ≤ k1) (hb0 : 0 ≤ b) (hb1 : b ≤ 1) (heps : 0 ≤ epsilon)
    (hok : runIndex log norm stem keys raw b k1 epsilon = .ok res) :
    allScoresNonneg res.2 := by
  rw [runIndex] at hok
  rw [calculateScores] at hok
  cases hidf : calcIdf log (sortEntries raw) (buildFromRaw norm stem keys raw).data
      (buildFromRaw norm stem keys raw).docFreq keys [] with
  | error e =>
    rw [hidf] at hok
    cases hok
  | ok idfs =>
    rw [hidf] at hok
    have hbuilt : ∀ tp ∈ (buildFromRaw norm stem keys raw).data, ∀ dp ∈ tp.2,
        ∀ kv ∈ dp.2.score, 0 ≤ kv.2 := by
      intro tp htp dp hdp kv hkv
      rw [buildFromRaw_noScores norm stem keys raw tp htp dp hdp] at hkv
      cases hkv
    exact scoreKeys_nonneg k1 b epsilon (buildFromRaw norm stem keys raw).docLengths
      hk1 hb0 hb1 heps keys (idfs, (buildFromRaw norm stem keys raw).data) res hbuilt hok

/-- C9 witness: the concrete one-entry corpus scored with the default
parameters. -/
theorem C9_witness :
    allScoresNonneg
      [("hello", [("1", ⟨[("word", 0)], [("word", 0), ("total", 0)]⟩)])] :=
  C9_scores_nonneg (fun x => x) none none ["word"] [⟨"1", [("word", .vstr "hello")]⟩]
    (3/4) (3/2) (1/4)
    ([("word", [("hello", 0)])],
      [("hello", [("1", ⟨[("word", 0)], [("word", 0), ("total", 0)]⟩)])])
    (by decide) (by decide) (by decide) (by decide) (by decide)
